import Mathlib

/-!
# OpenShift strategy configuration (`pkg/providers/openshift/config.go`)

A shallow embedding of the strategy resolver: the constructors of
`ConfigMapConfigManager`, its built-in default config map, and
`ReadStorageStrategy`, together with the part of Go's `encoding/json` that
`ReadStorageStrategy` drives when it decodes one config map entry into a
`map[string]*StrategyConfig`.

Go strings are Lean strings (sequences of Unicode scalar values), a Go map is
an association list read with `List.lookup`, a nil pointer or nil slice is
`none`, and the `(value, error)` pair a Go function returns is kept as a pair
of options.
-/

namespace Openshift

/-! ## Errors -/

/-- Error values that reach the caller of `ReadStorageStrategy`.
`external` is an error produced by the config map accessor; `SyntaxError` and
`UnmarshalTypeError` are the two kinds of error `json.Unmarshal` reports here
(offsets and message texts are not kept); `fundamental` is `errorUtil.New` and
`withMessage` is `errorUtil.Wrapf`, which keeps the wrapped error as its cause. -/
inductive Error where
  | external (text : String)
  | SyntaxError
  | UnmarshalTypeError
  | fundamental (msg : String)
  | withMessage (cause : Error) (msg : String)
  deriving DecidableEq, Repr

/-- The function `errors.Cause`: the innermost error below every `Wrapf` layer. -/
def Error.Cause : Error → Error
  | .withMessage cause _ => Error.Cause cause
  | e => e

/-- A message names `s` when `s` occurs in it as a contiguous run of characters. -/
def names (message s : String) : Prop := s.data <:+: message.data

/-! ## Data model -/

/-- The type `providers.ResourceType`, a Go string type. -/
abbrev ResourceType := String

/-- The constant `DefaultConfigMapName`. -/
def DefaultConfigMapName : String := "cloud-resources-openshift-strategies"

/-- The struct `StrategyConfig`: `RawStrategy` is a `json.RawMessage`, the bytes of
the JSON value under `strategy`, and `none` is the nil slice. -/
structure StrategyConfig where
  RawStrategy : Option String
  deriving DecidableEq, Repr

/-- The struct `ConfigMapConfigManager`, over any type of client. -/
structure ConfigMapConfigManager (Client : Type) where
  configMapName : String
  configMapNamespace : String
  client : Client

/-- The struct `types.NamespacedName`. -/
structure NamespacedName where
  Name : String
  Namespace : String
  deriving DecidableEq, Repr

/-- The part of `v1.ConfigMap` the resolver touches: the name and namespace of its
object metadata and its `Data` map. -/
structure ConfigMap where
  Name : String
  Namespace : String
  Data : List (String × String)
  deriving DecidableEq, Repr

/-- The function `resources.GetConfigMapOrDefault` as the resolver sees it: given the
client, the name of the config map and a default config map, it yields a config
map or an error. -/
abbrev Accessor (Client : Type) := Client → NamespacedName → ConfigMap → Except Error ConfigMap

/-! ## Constructors -/

/-- The function `NewConfigMapConfigManager`. The package variable
`DefaultConfigMapNamespace` is read from the environment at start-up and is a
parameter here. -/
def NewConfigMapConfigManager {Client : Type} (DefaultConfigMapNamespace : String)
    (cm : String) (ns : String) (client : Client) : ConfigMapConfigManager Client :=
  let cm := if cm = "" then DefaultConfigMapName else cm
  let ns := if ns = "" then DefaultConfigMapNamespace else ns
  { configMapName := cm, configMapNamespace := ns, client := client }

/-- The function `NewDefaultConfigManager`. -/
def NewDefaultConfigManager {Client : Type} (DefaultConfigMapNamespace : String)
    (client : Client) : ConfigMapConfigManager Client :=
  NewConfigMapConfigManager DefaultConfigMapNamespace DefaultConfigMapName
    DefaultConfigMapNamespace client

/-- The method `buildDefaultConfigMap`. -/
def buildDefaultConfigMap {Client : Type} (m : ConfigMapConfigManager Client) : ConfigMap :=
  { Name := m.configMapName
    Namespace := m.configMapNamespace
    Data := [
      ("postgres", "\x7b\"development\": \x7b \"strategy\": \x7b\x7d \x7d, \"production\": \x7b \"strategy\": \x7b\x7d \x7d \x7d"),
      ("redis", "\x7b\"development\": \x7b \"strategy\": \x7b\x7d \x7d, \"production\": \x7b \"strategy\": \x7b\x7d \x7d \x7d"),
      ("blobstorage", "\x7b\"development\": \x7b \"strategy\": \x7b\x7d \x7d, \"production\": \x7b \"strategy\": \x7b\x7d \x7d \x7d")] }

/-! ## JSON text: the scanner of `encoding/json` -/

namespace JSON

/-- White space between JSON tokens: space, tab, carriage return, line feed. -/
def isSpace (c : Char) : Bool := c = ' ' || c = '\t' || c = '\r' || c = '\n'

/-- Drop leading white space. -/
def skipSpace : List Char → List Char
  | [] => []
  | c :: cs => if isSpace c then skipSpace cs else c :: cs

/-- Decimal digits. -/
def isDigit (c : Char) : Bool := decide (48 ≤ c.toNat) && decide (c.toNat ≤ 57)

/-- Hexadecimal digits of either case. -/
def isHex (c : Char) : Bool :=
  isDigit c || (decide (97 ≤ c.toNat) && decide (c.toNat ≤ 102))
    || (decide (65 ≤ c.toNat) && decide (c.toNat ≤ 70))

/-- The characters allowed after a backslash other than `u`. -/
def isSimpleEscape (c : Char) : Bool :=
  c = '"' || c = '\\' || c = '/' || c = 'b' || c = 'f' || c = 'n' || c = 'r' || c = 't'

/-- Scan a string literal whose opening quote has been read; the result is the text
after the closing quote. Control characters are refused, a backslash must start
a valid escape. -/
def scanString : List Char → Option (List Char)
  | [] => none
  | c :: cs =>
    if c = '"' then some cs
    else if c = '\\' then
      match cs with
      | [] => none
      | e :: r =>
        if e = 'u' then
          match r with
          | h1 :: h2 :: h3 :: h4 :: r' =>
            if isHex h1 && isHex h2 && isHex h3 && isHex h4 then scanString r' else none
          | _ => none
        else if isSimpleEscape e then scanString r
        else none
    else if c.toNat < 32 then none
    else scanString cs

/-- Drop leading digits. -/
def skipDigits : List Char → List Char
  | [] => []
  | c :: cs => if isDigit c then skipDigits cs else c :: cs

/-- One digit or more. -/
def scanDigits1 : List Char → Option (List Char)
  | [] => none
  | c :: cs => if isDigit c then some (skipDigits cs) else none

/-- The optional exponent of a number. -/
def scanExp : List Char → Option (List Char)
  | [] => some []
  | c :: cs =>
    if c = 'e' || c = 'E' then
      match cs with
      | [] => none
      | s :: r => if s = '+' || s = '-' then scanDigits1 r else scanDigits1 (s :: r)
    else some (c :: cs)

/-- The optional fraction of a number, then its optional exponent. -/
def scanFrac : List Char → Option (List Char)
  | [] => some []
  | c :: cs =>
    if c = '.' then (scanDigits1 cs).bind scanExp else scanExp (c :: cs)

/-- The integer part of a number: a single `0`, or a non-zero digit and more digits. -/
def scanInt : List Char → Option (List Char)
  | [] => none
  | c :: cs =>
    if c = '0' then some cs
    else if isDigit c then some (skipDigits cs)
    else none

/-- Scan a number; the result is the text after it. -/
def scanNumber : List Char → Option (List Char)
  | [] => none
  | c :: cs => (if c = '-' then scanInt cs else scanInt (c :: cs)).bind scanFrac

/-- Read the rest of a literal name (`true`, `false`, `null`) after its first letter. -/
def scanLiteral (tail : List Char) (cs : List Char) : Option (List Char) :=
  if tail.isPrefixOf cs then some (cs.drop tail.length) else none

/-- The value of a hexadecimal digit. -/
def hexVal (c : Char) : Nat :=
  if isDigit c then c.toNat - 48
  else if 97 ≤ c.toNat then c.toNat - 87
  else c.toNat - 55

/-- The function `getu4` on the four digits that follow a backslash and `u`. -/
def hex4 (h1 h2 h3 h4 : Char) : Nat :=
  ((hexVal h1 * 16 + hexVal h2) * 16 + hexVal h3) * 16 + hexVal h4

/-- The character a simple escape stands for. -/
def unescape (e : Char) : Char :=
  if e = 'b' then Char.ofNat 8
  else if e = 'f' then Char.ofNat 12
  else if e = 'n' then '\n'
  else if e = 'r' then '\r'
  else if e = 't' then '\t'
  else e

/-- First half of the function `unquote`, on a string literal whose opening quote has
been read: the code units up to the closing quote, one for each plain character
and one for each escape (the four hexadecimal digits of a `u` escape give the
unit directly, so it may be a surrogate half). -/
def unquoteUnits : List Char → List Nat
  | [] => []
  | c :: cs =>
    if c = '"' then []
    else if c = '\\' then
      match cs with
      | [] => []
      | e :: r =>
        if e = 'u' then
          match r with
          | h1 :: h2 :: h3 :: h4 :: r' => hex4 h1 h2 h3 h4 :: unquoteUnits r'
          | _ => []
        else (unescape e).toNat :: unquoteUnits r
    else c.toNat :: unquoteUnits cs

/-- Second half of the function `unquote`: a high surrogate directly followed by a low
surrogate is one character (`utf16.DecodeRune`), any other surrogate half is
U+FFFD. Surrogate units only come from `u` escapes, as no character is one. -/
def decodeUnits : List Nat → List Char
  | [] => []
  | [u] => [if 0xD800 ≤ u ∧ u < 0xE000 then Char.ofNat 0xFFFD else Char.ofNat u]
  | u :: v :: rest =>
    if 0xD800 ≤ u ∧ u < 0xE000 then
      if u < 0xDC00 ∧ 0xDC00 ≤ v ∧ v < 0xE000 then
        Char.ofNat ((u - 0xD800) * 1024 + (v - 0xDC00) + 0x10000) :: decodeUnits rest
      else Char.ofNat 0xFFFD :: decodeUnits (v :: rest)
    else Char.ofNat u :: decodeUnits (v :: rest)

/-- The function `unquote` on a string literal whose opening quote has been read: the
characters up to the closing quote with every escape replaced. -/
def unquote (cs : List Char) : List Char := decodeUnits (unquoteUnits cs)

/-- What the scanner is reading: one value; the members of an object from the
opening quote of a key to the closing brace; the elements of an array from the
start of an element to the closing bracket. -/
inductive Mode where
  | value
  | members
  | elems
  deriving DecidableEq, Repr

/-- A member of an object as the decoder needs it: its key with escapes replaced,
the exact text of its value, and, when that value is itself an object, the keys
and value texts of that object's members. -/
structure Member where
  key : List Char
  raw : List Char
  sub : List (List Char × List Char)
  deriving DecidableEq, Repr

/-- The constant `maxNestingDepth` of the scanner. -/
def maxNestingDepth : Nat := 10000

/-- The JSON grammar as the scanner accepts it. `scan fuel depth mode inp` reads what
`mode` names from the front of `inp`, below `depth` open objects and arrays, and
returns the text that follows it; for an object it also returns the members.
`fuel` bounds the chain of nested calls. -/
def scan : Nat → Nat → Mode → List Char → Option (List Member × List Char)
  | 0, _, _, _ => none
  | fuel + 1, depth, .value, inp =>
    match inp with
    | [] => none
    | c :: cs =>
      if c = '{' then
        if depth < maxNestingDepth then
          match skipSpace cs with
          | [] => none
          | c' :: cs' =>
            if c' = '}' then some ([], cs') else scan fuel (depth + 1) .members (c' :: cs')
        else none
      else if c = '[' then
        if depth < maxNestingDepth then
          match skipSpace cs with
          | [] => none
          | c' :: cs' =>
            if c' = ']' then some ([], cs') else scan fuel (depth + 1) .elems (c' :: cs')
        else none
      else if c = '"' then (scanString cs).map fun r => ([], r)
      else if c = 't' then (scanLiteral ['r', 'u', 'e'] cs).map fun r => ([], r)
      else if c = 'f' then (scanLiteral ['a', 'l', 's', 'e'] cs).map fun r => ([], r)
      else if c = 'n' then (scanLiteral ['u', 'l', 'l'] cs).map fun r => ([], r)
      else (scanNumber (c :: cs)).map fun r => ([], r)
  | fuel + 1, depth, .members, inp =>
    match inp with
    | [] => none
    | q :: cs =>
      if q = '"' then
        match scanString cs with
        | none => none
        | some r1 =>
          match skipSpace r1 with
          | [] => none
          | col :: r2 =>
            if col = ':' then
              match scan fuel depth .value (skipSpace r2) with
              | none => none
              | some (sub, r3) =>
                let v := skipSpace r2
                let mem : Member :=
                  { key := unquote cs
                    raw := v.take (v.length - r3.length)
                    sub := sub.map fun m => (m.key, m.raw) }
                match skipSpace r3 with
                | [] => none
                | d :: r4 =>
                  if d = ',' then
                    (scan fuel depth .members (skipSpace r4)).map fun p => (mem :: p.1, p.2)
                  else if d = '}' then some ([mem], r4)
                  else none
            else none
      else none
  | fuel + 1, depth, .elems, inp =>
    match scan fuel depth .value inp with
    | none => none
    | some (_, r1) =>
      match skipSpace r1 with
      | [] => none
      | d :: r2 =>
        if d = ',' then scan fuel depth .elems (skipSpace r2)
        else if d = ']' then some ([], r2)
        else none

/-- The function `checkValid` on a whole text: white space, one value, white space and
nothing else. The result is the members of the value when it is an object. The
fuel given to `scan` is above the longest chain of nested calls a text of this
length can cause. -/
def document (text : List Char) : Option (List Member) :=
  let inp := skipSpace text
  match scan (2 * inp.length + 2) 0 .value inp with
  | none => none
  | some (ms, rest) =>
    match skipSpace rest with
    | [] => some ms
    | _ :: _ => none

end JSON

/-! ## Decoding into `map[string]*StrategyConfig` -/

/-- Case folding of a field name or object key (`foldName`): a lower-case ASCII letter
folds to its upper-case form, and so do the two other characters that Unicode
simple folding joins to an ASCII letter, U+017F to `S` and U+212A to `K`. -/
def foldRune (c : Char) : Char :=
  if 97 ≤ c.toNat ∧ c.toNat ≤ 122 then Char.ofNat (c.toNat - 32)
  else if c = Char.ofNat 0x17F then 'S'
  else if c = Char.ofNat 0x212A then 'K'
  else c

/-- An object key selects the struct field tagged `name` when the two are equal up
to case folding. -/
def matchesField (name key : List Char) : Bool := key.map foldRune = name.map foldRune

/-- Decode the members of an object into a `StrategyConfig`: a member whose key
selects the field `strategy` stores the exact text of its value (also the text
`null`) in `RawStrategy`, the last such member wins, and any other member is
skipped. -/
def decodeStruct (fields : List (List Char × List Char)) : StrategyConfig :=
  fields.foldl
    (fun s f => if matchesField "strategy".data f.1 then { RawStrategy := some (String.mk f.2) } else s)
    { RawStrategy := none }

/-- Decode one value of the top-level object into a `*StrategyConfig`: `null` is the
nil pointer, an object is a fresh `StrategyConfig`, and an array, string, number
or boolean is an `UnmarshalTypeError`. -/
def decodeElem (m : JSON.Member) : Except Error (Option StrategyConfig) :=
  match m.raw with
  | [] => .error .SyntaxError
  | c :: _ =>
    if c = 'n' then .ok none
    else if c = '{' then .ok (some (decodeStruct m.sub))
    else .error .UnmarshalTypeError

/-- Assignment `m[k] = v` on a Go map kept as an association list with distinct
keys, in the order the keys were first set. -/
def mapSet {β : Type} (k : String) (v : β) : List (String × β) → List (String × β)
  | [] => [(k, v)]
  | (k', v') :: rest => if k' = k then (k, v) :: rest else (k', v') :: mapSet k v rest

/-- Decode the members of the top-level object in order, each into the map entry of
its key; a later member with the same key replaces the earlier one. -/
def decodeMap (acc : List (String × Option StrategyConfig)) :
    List JSON.Member → Except Error (List (String × Option StrategyConfig))
  | [] => .ok acc
  | m :: ms =>
    match decodeElem m with
    | .error e => .error e
    | .ok v => decodeMap (mapSet (String.mk m.key) v acc) ms

/-- The call `json.Unmarshal([]byte(data), &strategies)` with `strategies` a nil
`map[string]*StrategyConfig`: the whole text is first checked against the JSON
grammar (white space may surround the one value), then the value is decoded.
The text `null` leaves the map nil, an object fills it, and any other value is
an `UnmarshalTypeError`. The result is the error, or the map when there is
none. -/
def Unmarshal (data : String) : Except Error (List (String × Option StrategyConfig)) :=
  match JSON.document data.data with
  | none => .error .SyntaxError
  | some ms =>
    match JSON.skipSpace data.data with
    | [] => .error .SyntaxError
    | c :: _ =>
      if c = '{' then decodeMap [] ms
      else if c = 'n' then .ok []
      else .error .UnmarshalTypeError

/-! ## The resolver -/

/-- The method `ReadStorageStrategy`, returning the Go pair `(*StrategyConfig, error)`.
The accessor `resources.GetConfigMapOrDefault` is a parameter. -/
def ReadStorageStrategy {Client : Type} (GetConfigMapOrDefault : Accessor Client)
    (m : ConfigMapConfigManager Client) (rt : ResourceType) (tier : String) :
    Option StrategyConfig × Option Error :=
  match GetConfigMapOrDefault m.client
      { Name := m.configMapName, Namespace := m.configMapNamespace } (buildDefaultConfigMap m) with
  | .error err =>
    (none, some (.withMessage err
      ("failed to get openshift strategy config map " ++ m.configMapName
        ++ " in namespace " ++ m.configMapNamespace)))
  | .ok cm =>
    let rawStrategyCfg := (cm.Data.lookup rt).getD ""
    if rawStrategyCfg = "" then
      (none, some (.fundamental
        ("openshift strategy for resource type " ++ rt ++ " is not defined")))
    else
      match Unmarshal rawStrategyCfg with
      | .error err =>
        (none, some (.withMessage err
          ("failed to unmarshal strategy mapping for resource type " ++ rt)))
      | .ok strategies =>
        match (strategies.lookup tier).join with
        | none =>
          (none, some (.fundamental
            ("no strategy found for deployment type " ++ rt
              ++ " and deployment tier " ++ tier)))
        | some s => (some s, none)

/-! ## Encoding a tier mapping -/

/-- The digit of `n` in the table `0123456789abcdef`. -/
def hexDigit (n : Nat) : Char :=
  if n < 10 then Char.ofNat (48 + n) else Char.ofNat (87 + n)

/-- The characters `json.Marshal` never writes as themselves: `<`, `>` and `&` become
a `u` escape with two leading zeros, U+2028 and U+2029 a `u` escape. -/
def escapeHTML (c : Char) : List Char :=
  if c = '<' ∨ c = '>' ∨ c = '&' then
    ['\\', 'u', '0', '0', hexDigit (c.toNat / 16), hexDigit (c.toNat % 16)]
  else if c.toNat = 0x2028 ∨ c.toNat = 0x2029 then
    ['\\', 'u', '2', '0', '2', hexDigit (c.toNat % 16)]
  else [c]

/-- One character of a string as `json.Marshal` writes it between the quotes
(`appendString`): a quote and a backslash get a backslash, the control
characters get their short escape or a `u` escape, and the rest is left to
`escapeHTML`. -/
def quoteChar (c : Char) : List Char :=
  if c = '\\' ∨ c = '"' then ['\\', c]
  else if c.toNat = 8 then ['\\', 'b']
  else if c.toNat = 12 then ['\\', 'f']
  else if c = '\n' then ['\\', 'n']
  else if c = '\r' then ['\\', 'r']
  else if c = '\t' then ['\\', 't']
  else if c.toNat < 32 then
    ['\\', 'u', '0', '0', hexDigit (c.toNat / 16), hexDigit (c.toNat % 16)]
  else escapeHTML c

/-- The text of a string between the quotes, as `json.Marshal` writes it. -/
def quoteBody (t : List Char) : List Char := t.flatMap quoteChar

/-- The function `compact` with HTML escaping, as `json.Marshal` applies it to a
`json.RawMessage`, on a text already known to be valid: white space outside
string literals is dropped and the characters of `escapeHTML` are escaped. The
flag tells whether the text so far ends inside a string literal. -/
def compactText : Bool → List Char → List Char
  | _, [] => []
  | false, c :: cs =>
    if JSON.isSpace c then compactText false cs
    else escapeHTML c ++ compactText (c = '"') cs
  | true, c :: cs =>
    if c = '\\' then
      match cs with
      | [] => [c]
      | e :: r => c :: escapeHTML e ++ compactText true r
    else escapeHTML c ++ compactText (c ≠ '"') cs

/-- Modelled from the spec: the encoder of the round-trip property ("encoding a
StrategyConfig into the tier-mapping text format for resource type rt and tier
t"), for which the repository has no code. It is `json.Marshal` on the one-entry
map `map[string]*StrategyConfig` from `tier` to `s`, under the struct tag
`json:"strategy"` of `StrategyConfig`: the key is quoted, a nil payload is
written as `null`, and any other payload must be valid JSON and is written
compacted; an invalid payload makes the encoder fail. -/
def encodeTierMapping (tier : String) (s : StrategyConfig) : Option String :=
  let payload : Option (List Char) :=
    match s.RawStrategy with
    | none => some ['n', 'u', 'l', 'l']
    | some raw =>
      if (JSON.document raw.data).isSome then some (compactText false raw.data) else none
  payload.map fun p =>
    String.mk (['{', '"'] ++ quoteBody tier.data
      ++ ['"', ':', '{', '"', 's', 't', 'r', 'a', 't', 'e', 'g', 'y', '"', ':'] ++ p ++ ['}', '}'])

/-- A text is one JSON value, with nothing before or after it, that the scanner
accepts below `depth` open objects and arrays. -/
def JSON.isValueAt (depth : Nat) (text : List Char) : Bool :=
  match JSON.scan (2 * text.length + 2) depth .value text with
  | some (_, []) => true
  | _ => false

namespace JSON

/-- The first character of `ext`, if any, cannot continue a number: it is not a
digit, a dot or an exponent mark. -/
def EndsNumber (ext : List Char) : Prop :=
  ∀ e ∈ ext.head?, isDigit e = false ∧ e ≠ '.' ∧ e ≠ 'e' ∧ e ≠ 'E'

/-- The text of the object `{"strategy":raw}` followed by `ext`. -/
def strategyObject (raw ext : List Char) : List Char :=
  '{' :: '"' :: 's' :: 't' :: 'r' :: 'a' :: 't' :: 'e' :: 'g' :: 'y' :: '"' :: ':' :: (raw ++ '}' :: ext)

/-- The text `{"tier":{"strategy":raw}}` with the tier quoted. -/
def tierMappingText (t raw : List Char) : List Char :=
  '{' :: '"' :: (quoteBody t ++ '"' :: ':' :: strategyObject raw ['}'])

end JSON

/-! ## Sample inputs -/

/-- An accessor that finds the record `cm` in the store. -/
def foundAccessor (cm : ConfigMap) : Accessor Unit := fun _ _ _ => .ok cm

/-- An accessor whose store fails with the error `e`. -/
def failingAccessor (e : Error) : Accessor Unit := fun _ _ _ => .error e

/-- An accessor whose store has no record yet: it yields the default it is given. -/
def defaultAccessor : Accessor Unit := fun _ _ def_ => .ok def_

/-- A manager built with the default name, in the namespace `cro`. -/
def sampleManager : ConfigMapConfigManager Unit := NewDefaultConfigManager "cro" ()

/-- A record with two well-formed entries, one malformed entry under a key that
differs from `blobstorage` by case, one entry under a key that differs from it
by surrounding white space, and one empty entry. -/
def sampleRecord : ConfigMap :=
  { Name := "cloud-resources-openshift-strategies"
    Namespace := "cro"
    Data := [
      ("postgres", "\x7b\"development\": \x7b\"strategy\": \x7b\"size\": 1\x7d\x7d, \"production\": \x7b\"strategy\": \x7b\"size\": 2\x7d\x7d, \"staging\": null\x7d"),
      ("redis", "\x7b\"production\": \x7b\"strategy\": \x7b\"size\": 3\x7d\x7d\x7d"),
      ("Blobstorage", "\x7bnot json"),
      (" blobstorage ", "\x7b\"production\": \x7b\"strategy\": \x7b\x7d\x7d\x7d"),
      ("smtp", "")] }

/-- A record whose entry for `postgres` gives `development` a null payload. -/
def nullPayloadRecord : ConfigMap :=
  { Name := "cloud-resources-openshift-strategies"
    Namespace := "cro"
    Data := [("postgres", "\x7b\"development\": \x7b\"strategy\": null\x7d\x7d")] }

/-- A record whose entry for `postgres` gives `development` no payload. -/
def missingPayloadRecord : ConfigMap :=
  { Name := "cloud-resources-openshift-strategies"
    Namespace := "cro"
    Data := [("postgres", "\x7b\"development\": \x7b\x7d\x7d")] }

/-- A record whose only entry is `text`, under the key `rt`. -/
def singleEntryRecord (rt : ResourceType) (text : String) : ConfigMap :=
  { Name := "cloud-resources-openshift-strategies"
    Namespace := "cro"
    Data := [(rt, text)] }

/-- The round trip on a sample store: encode the one-entry mapping from `tier` to `s`,
store the text as the entry for `rt`, and resolve `rt` and `tier`. The result is
`none` when the encoder fails. -/
def roundTrip (rt : ResourceType) (tier : String) (s : StrategyConfig) :
    Option (Option StrategyConfig × Option Error) :=
  (encodeTierMapping tier s).map fun text =>
    ReadStorageStrategy (foundAccessor (singleEntryRecord rt text)) sampleManager rt tier

/-! ## Helper lemmas -/

theorem names_of_eq (message a s b : String) (h : message = a ++ s ++ b) : names message s := by
  subst h
  exact ⟨a.data, b.data, by simp [String.data_append]⟩

theorem names_of_eq_end (message a s : String) (h : message = a ++ s) : names message s := by
  subst h
  exact ⟨a.data, [], by simp [String.data_append]⟩

theorem unmarshal_empty : Unmarshal "" = .error .SyntaxError := by rfl

theorem lookup_none_of_no_key (data : List (String × String)) (rt : String)
    (h : ∀ p ∈ data, p.1 ≠ rt) : data.lookup rt = none := by
  induction data with
  | nil => rfl
  | cons p ps ih =>
    obtain ⟨k, v⟩ := p
    have hk : k ≠ rt := h (k, v) (List.mem_cons_self _ _)
    have hk' : (rt == k) = false := by simpa using fun e => hk e.symm
    rw [List.lookup_cons, hk']
    exact ih fun q hq => h q (List.mem_cons_of_mem _ hq)

/-! ## Lemmas on string literals and on the scanner -/

namespace JSON

theorem scanString_cons (c : Char) (cs : List Char) :
    scanString (c :: cs) =
      if c = '"' then some cs
      else if c = '\\' then
        match cs with
        | [] => none
        | e :: r =>
          if e = 'u' then
            match r with
            | h1 :: h2 :: h3 :: h4 :: r' =>
              if isHex h1 && isHex h2 && isHex h3 && isHex h4 then scanString r' else none
            | _ => none
          else if isSimpleEscape e then scanString r
          else none
      else if c.toNat < 32 then none
      else scanString cs := by
  rw [scanString.eq_def]

theorem unquoteUnits_cons (c : Char) (cs : List Char) :
    unquoteUnits (c :: cs) =
      if c = '"' then []
      else if c = '\\' then
        match cs with
        | [] => []
        | e :: r =>
          if e = 'u' then
            match r with
            | h1 :: h2 :: h3 :: h4 :: r' => hex4 h1 h2 h3 h4 :: unquoteUnits r'
            | _ => []
          else (unescape e).toNat :: unquoteUnits r
      else c.toNat :: unquoteUnits cs := by
  rw [unquoteUnits.eq_def]

theorem hexVal_hexDigit : ∀ k < 16, hexVal (hexDigit k) = k := by decide

theorem isHex_hexDigit : ∀ k < 16, isHex (hexDigit k) = true := by decide

theorem char_not_surrogate (c : Char) : ¬(0xD800 ≤ c.toNat ∧ c.toNat < 0xE000) := by
  have h := c.valid
  simp only [Char.toNat, UInt32.isValidChar, Nat.isValidChar] at *
  omega

theorem char_eq_of_toNat (c : Char) (n : Nat) (h : c.toNat = n) : c = Char.ofNat n := by
  rw [← h, Char.ofNat_toNat]

theorem escapeHTML_cases (c : Char) :
    (escapeHTML c = [c] ∧ c ≠ '<' ∧ c ≠ '>' ∧ c ≠ '&' ∧ c.toNat ≠ 0x2028 ∧ c.toNat ≠ 0x2029)
    ∨ (c = '<' ∧ escapeHTML c = ['\\', 'u', '0', '0', '3', 'c'])
    ∨ (c = '>' ∧ escapeHTML c = ['\\', 'u', '0', '0', '3', 'e'])
    ∨ (c = '&' ∧ escapeHTML c = ['\\', 'u', '0', '0', '2', '6'])
    ∨ (c = Char.ofNat 0x2028 ∧ escapeHTML c = ['\\', 'u', '2', '0', '2', '8'])
    ∨ (c = Char.ofNat 0x2029 ∧ escapeHTML c = ['\\', 'u', '2', '0', '2', '9']) := by
  by_cases h1 : c = '<'
  · subst h1; right; left; exact ⟨rfl, by decide⟩
  by_cases h2 : c = '>'
  · subst h2; right; right; left; exact ⟨rfl, by decide⟩
  by_cases h3 : c = '&'
  · subst h3; right; right; right; left; exact ⟨rfl, by decide⟩
  by_cases h4 : c.toNat = 0x2028
  · have := char_eq_of_toNat c _ h4
    subst this; right; right; right; right; left; exact ⟨rfl, by decide⟩
  by_cases h5 : c.toNat = 0x2029
  · have := char_eq_of_toNat c _ h5
    subst this; right; right; right; right; right; exact ⟨rfl, by decide⟩
  left
  refine ⟨?_, h1, h2, h3, h4, h5⟩
  simp [escapeHTML, h1, h2, h3, h4, h5]

theorem scanString_quoteChar (c : Char) (rest : List Char) :
    scanString (quoteChar c ++ rest) = scanString rest := by
  unfold quoteChar
  split_ifs with h1 h2 h3 h4 h5 h6 h7
  · rcases h1 with h | h <;> subst h <;> simp [scanString_cons, isSimpleEscape]
  · simp [scanString_cons, isSimpleEscape]
  · simp [scanString_cons, isSimpleEscape]
  · simp [scanString_cons, isSimpleEscape]
  · simp [scanString_cons, isSimpleEscape]
  · simp [scanString_cons, isSimpleEscape]
  · have hd1 := isHex_hexDigit (c.toNat / 16) (by omega)
    have hd2 := isHex_hexDigit (c.toNat % 16) (by omega)
    have h0 : isHex '0' = true := by decide
    simp [scanString_cons, hd1, hd2, h0]
  · rcases escapeHTML_cases c with h | h | h | h | h | h
    · rw [h.1]
      have hq : c ≠ '"' := fun h' => h1 (Or.inr h')
      have hb : c ≠ '\\' := fun h' => h1 (Or.inl h')
      simp [scanString_cons, hq, hb, h7]
    all_goals
      rw [h.2]
      have h0 : isHex '0' = true := by decide
      have h2 : isHex '2' = true := by decide
      have h3 : isHex '3' = true := by decide
      have h6 : isHex '6' = true := by decide
      have h8 : isHex '8' = true := by decide
      have h9 : isHex '9' = true := by decide
      have hc : isHex 'c' = true := by decide
      have he : isHex 'e' = true := by decide
      simp [scanString_cons, h0, h2, h3, h6, h8, h9, hc, he]

theorem scanString_quoteBody (t rest : List Char) :
    scanString (quoteBody t ++ '"' :: rest) = some rest := by
  induction t with
  | nil => simp [quoteBody, scanString_cons]
  | cons c t ih =>
    have : quoteBody (c :: t) = quoteChar c ++ quoteBody t := by
      simp [quoteBody, List.flatMap_cons]
    rw [this, List.append_assoc, scanString_quoteChar, ih]

theorem unquoteUnits_quoteChar (c : Char) (rest : List Char) :
    unquoteUnits (quoteChar c ++ rest) = c.toNat :: unquoteUnits rest := by
  unfold quoteChar
  split_ifs with h1 h2 h3 h4 h5 h6 h7
  · rcases h1 with h | h <;> subst h <;> simp [unquoteUnits_cons, unescape]
  · simp [unquoteUnits_cons, unescape, h2]
  · simp [unquoteUnits_cons, unescape, h3]
  · subst h4; simp [unquoteUnits_cons, unescape]
  · subst h5; simp [unquoteUnits_cons, unescape]
  · subst h6; simp [unquoteUnits_cons, unescape]
  · have hd1 := hexVal_hexDigit (c.toNat / 16) (by omega)
    have hd2 := hexVal_hexDigit (c.toNat % 16) (by omega)
    have h0 : hexVal '0' = 0 := by decide
    simp [unquoteUnits_cons, hex4, hd1, hd2, h0]
    omega
  · rcases escapeHTML_cases c with h | h | h | h | h | h
    · rw [h.1]
      have hq : c ≠ '"' := fun h' => h1 (Or.inr h')
      have hb : c ≠ '\\' := fun h' => h1 (Or.inl h')
      simp [unquoteUnits_cons, hq, hb]
    all_goals
      rw [h.2, h.1]
      simp [unquoteUnits_cons]
      decide

theorem unquoteUnits_quoteBody (t rest : List Char) :
    unquoteUnits (quoteBody t ++ '"' :: rest) = t.map Char.toNat := by
  induction t with
  | nil => simp [quoteBody, unquoteUnits_cons]
  | cons c t ih =>
    have : quoteBody (c :: t) = quoteChar c ++ quoteBody t := by
      simp [quoteBody, List.flatMap_cons]
    rw [this, List.append_assoc, unquoteUnits_quoteChar, ih, List.map_cons]

theorem decodeUnits_toNat (t : List Char) : decodeUnits (t.map Char.toNat) = t := by
  induction t with
  | nil => rfl
  | cons c t ih =>
    have hc := char_not_surrogate c
    cases t with
    | nil => simp [decodeUnits, hc, Char.ofNat_toNat]
    | cons d t =>
      simp only [List.map_cons] at ih ⊢
      rw [decodeUnits, if_neg hc, ih, Char.ofNat_toNat]

theorem unquote_quoteBody (t rest : List Char) :
    unquote (quoteBody t ++ '"' :: rest) = t := by
  rw [unquote, unquoteUnits_quoteBody, decodeUnits_toNat]

theorem endsNumber_nil : EndsNumber [] := by
  intro e he; simp at he

theorem skipSpace_append (r ext : List Char) (c : Char) (r' : List Char)
    (h : skipSpace r = c :: r') : skipSpace (r ++ ext) = c :: r' ++ ext := by
  induction r with
  | nil => simp [skipSpace] at h
  | cons a r ih =>
    simp only [skipSpace, List.cons_append] at h ⊢
    by_cases ha : isSpace a = true
    · simp only [ha, if_true] at h ⊢
      exact ih h
    · simp only [ha] at h ⊢
      simp only [Bool.false_eq_true, if_false] at h ⊢
      injection h with h1 h2
      subst h1 h2
      rfl

theorem scanString_append (ext : List Char) :
    ∀ (n : Nat) (cs r : List Char), cs.length ≤ n → scanString cs = some r →
      scanString (cs ++ ext) = some (r ++ ext) := by
  intro n
  induction n with
  | zero =>
    intro cs r hl h
    cases cs with
    | nil => simp [scanString] at h
    | cons c cs => simp at hl
  | succ n ih =>
    intro cs r hl h
    cases cs with
    | nil => simp [scanString] at h
    | cons c cs =>
      rw [List.cons_append, scanString_cons]
      rw [scanString_cons] at h
      simp only [List.length_cons] at hl
      split_ifs at h ⊢ with h1 h2 h3
      · simp only [Option.some.injEq] at h ⊢; rw [h]
      · cases cs with
        | nil => simp at h
        | cons e r1 =>
          simp only [List.cons_append] at h ⊢
          simp only [List.length_cons] at hl
          split_ifs at h ⊢ with h4 h5
          · match r1, h, hl with
            | h1 :: h2 :: h3 :: h4 :: r', h, hl =>
              simp only [List.cons_append] at h ⊢
              simp only [List.length_cons] at hl
              split_ifs at h ⊢ with h6
              exact ih r' r (by omega) h
            | [], h, _ => simp at h
            | [_], h, _ => simp at h
            | [_, _], h, _ => simp at h
            | [_, _, _], h, _ => simp at h
          · exact ih r1 r (by omega) h
      · exact ih cs r (by omega) h

theorem unquoteUnits_append (ext : List Char) :
    ∀ (n : Nat) (cs r : List Char), cs.length ≤ n → scanString cs = some r →
      unquoteUnits (cs ++ ext) = unquoteUnits cs := by
  intro n
  induction n with
  | zero =>
    intro cs r hl h
    cases cs with
    | nil => simp [scanString] at h
    | cons c cs => simp at hl
  | succ n ih =>
    intro cs r hl h
    cases cs with
    | nil => simp [scanString] at h
    | cons c cs =>
      rw [List.cons_append, unquoteUnits_cons, unquoteUnits_cons]
      rw [scanString_cons] at h
      simp only [List.length_cons] at hl
      split_ifs at h ⊢ with h1 h2 h3
      · rfl
      · cases cs with
        | nil => simp at h
        | cons e r1 =>
          simp only [List.cons_append] at h ⊢
          simp only [List.length_cons] at hl
          split_ifs at h ⊢ with h4 h5
          · match r1, h, hl with
            | h1 :: h2 :: h3 :: h4 :: r', h, hl =>
              simp only [List.cons_append] at h ⊢
              simp only [List.length_cons] at hl
              split_ifs at h with h6
              rw [ih r' r (by omega) h]
            | [], h, _ => simp at h
            | [_], h, _ => simp at h
            | [_, _], h, _ => simp at h
            | [_, _, _], h, _ => simp at h
          · rw [ih r1 r (by omega) h]
      · rw [ih cs r (by omega) h]

theorem unquote_append (ext cs r : List Char) (h : scanString cs = some r) :
    unquote (cs ++ ext) = unquote cs := by
  rw [unquote, unquote, unquoteUnits_append ext cs.length cs r (Nat.le_refl _) h]

theorem scanLiteral_append (tail cs r ext : List Char) (h : scanLiteral tail cs = some r) :
    scanLiteral tail (cs ++ ext) = some (r ++ ext) := by
  unfold scanLiteral at h ⊢
  split_ifs at h with h1
  simp only [Option.some.injEq] at h
  have hp : tail <+: cs := List.isPrefixOf_iff_prefix.mp h1
  obtain ⟨u, hu⟩ := hp
  have h2 : tail.isPrefixOf (cs ++ ext) = true :=
    List.isPrefixOf_iff_prefix.mpr ⟨u ++ ext, by rw [← hu, List.append_assoc]⟩
  rw [if_pos h2, ← h, ← hu]
  simp

theorem skipDigits_append (cs ext : List Char) (hext : EndsNumber ext) :
    skipDigits (cs ++ ext) = skipDigits cs ++ ext := by
  induction cs with
  | nil =>
    cases ext with
    | nil => rfl
    | cons e ext =>
      have := (hext e (by simp)).1
      simp [skipDigits, this]
  | cons c cs ih =>
    simp only [List.cons_append, skipDigits]
    split_ifs
    · exact ih
    · rfl

theorem scanDigits1_append (cs r ext : List Char) (hext : EndsNumber ext)
    (h : scanDigits1 cs = some r) : scanDigits1 (cs ++ ext) = some (r ++ ext) := by
  cases cs with
  | nil => simp [scanDigits1] at h
  | cons c cs =>
    simp only [List.cons_append, scanDigits1] at h ⊢
    split_ifs at h ⊢
    simp only [Option.some.injEq] at h ⊢
    rw [skipDigits_append _ _ hext, h]

theorem scanExp_append (cs r ext : List Char) (hext : EndsNumber ext)
    (h : scanExp cs = some r) : scanExp (cs ++ ext) = some (r ++ ext) := by
  cases cs with
  | nil =>
    simp only [scanExp, Option.some.injEq] at h
    subst h
    cases ext with
    | nil => rfl
    | cons e ext =>
      have := hext e (by simp)
      simp [scanExp, this.2.2.1, this.2.2.2]
  | cons c cs =>
    simp only [List.cons_append, scanExp] at h ⊢
    split_ifs at h ⊢
    · cases cs with
      | nil => simp at h
      | cons s r1 =>
        simp only [List.cons_append] at h ⊢
        split_ifs at h ⊢
        · exact scanDigits1_append _ _ _ hext h
        · exact scanDigits1_append (s :: r1) _ _ hext h
    · simp only [Option.some.injEq] at h ⊢
      rw [← h]; rfl

theorem scanFrac_append (cs r ext : List Char) (hext : EndsNumber ext)
    (h : scanFrac cs = some r) : scanFrac (cs ++ ext) = some (r ++ ext) := by
  cases cs with
  | nil =>
    simp only [scanFrac, Option.some.injEq] at h
    subst h
    cases ext with
    | nil => rfl
    | cons e ext =>
      have he := hext e (by simp)
      simp only [List.nil_append, scanFrac, he.2.1, if_false]
      exact scanExp_append [] [] (e :: ext) hext rfl
  | cons c cs =>
    simp only [List.cons_append, scanFrac] at h ⊢
    split_ifs at h ⊢
    · cases hd : scanDigits1 cs with
      | none => simp [hd] at h
      | some r1 =>
        rw [hd] at h
        rw [scanDigits1_append _ _ _ hext hd]
        exact scanExp_append _ _ _ hext h
    · exact scanExp_append (c :: cs) _ _ hext h

theorem scanInt_append (cs r ext : List Char) (hext : EndsNumber ext)
    (h : scanInt cs = some r) : scanInt (cs ++ ext) = some (r ++ ext) := by
  cases cs with
  | nil => simp [scanInt] at h
  | cons c cs =>
    simp only [List.cons_append, scanInt] at h ⊢
    split_ifs at h ⊢
    · simp only [Option.some.injEq] at h ⊢; rw [h]
    · simp only [Option.some.injEq] at h ⊢
      rw [skipDigits_append _ _ hext, h]

theorem scanNumber_append (cs r ext : List Char) (hext : EndsNumber ext)
    (h : scanNumber cs = some r) : scanNumber (cs ++ ext) = some (r ++ ext) := by
  cases cs with
  | nil => simp [scanNumber] at h
  | cons c cs =>
    simp only [List.cons_append, scanNumber] at h ⊢
    split_ifs at h ⊢
    · cases hd : scanInt cs with
      | none => simp [hd] at h
      | some r1 =>
        rw [hd] at h
        rw [scanInt_append _ _ _ hext hd]
        exact scanFrac_append _ _ _ hext h
    · cases hd : scanInt (c :: cs) with
      | none => simp [hd] at h
      | some r1 =>
        rw [hd] at h
        have := scanInt_append (c :: cs) _ _ hext hd
        rw [List.cons_append] at this
        rw [this]
        exact scanFrac_append _ _ _ hext h

theorem scan_nil (n d : Nat) (m : Mode) : scan n d m [] = none := by
  cases n with
  | zero => rw [scan]
  | succ n =>
    cases m with
    | value => rw [scan]
    | members => rw [scan]
    | elems =>
      rw [scan]
      cases n with
      | zero => rw [scan]
      | succ n => rw [scan]

theorem take_append_sub (v r ext : List Char) :
    (v ++ ext).take ((v ++ ext).length - (r ++ ext).length) = v.take (v.length - r.length) := by
  have h : (v ++ ext).length - (r ++ ext).length = v.length - r.length := by
    simp only [List.length_append]; omega
  rw [h, List.take_append_of_le_length (Nat.sub_le _ _)]

theorem scan_extend (ext : List Char) (hext : EndsNumber ext) :
    ∀ (n d : Nat) (m : Mode) (inp : List Char) (ms : List Member) (r : List Char),
      scan n d m inp = some (ms, r) →
      ∀ n' d', n ≤ n' → d' ≤ d → scan n' d' m (inp ++ ext) = some (ms, r ++ ext) := by
  intro n
  induction n with
  | zero => intro d m inp ms r h; rw [scan] at h; cases h
  | succ n ih =>
    intro d m inp ms r h n' d' hn hd
    obtain ⟨k, rfl⟩ : ∃ k, n' = k + 1 := ⟨n' - 1, by omega⟩
    have hk : n ≤ k := by omega
    cases inp with
    | nil => rw [scan_nil] at h; cases h
    | cons c cs =>
      cases m with
      | value =>
        rw [scan] at h
        rw [List.cons_append, scan]
        by_cases hc1 : c = '{'
        · rw [if_pos hc1] at h ⊢
          by_cases hdep : d < maxNestingDepth
          · have hdep' : d' < maxNestingDepth := Nat.lt_of_le_of_lt hd hdep
            simp only [hdep, hdep', if_true] at h ⊢
            cases hs : skipSpace cs with
            | nil => simp [hs] at h
            | cons c' cs' =>
              rw [hs] at h
              rw [skipSpace_append _ _ _ _ hs]
              by_cases hc' : c' = '}'
              · simp only [hc', if_true, Option.some.injEq, Prod.mk.injEq] at h ⊢
                simp only [List.cons_append, if_true, Option.some.injEq, Prod.mk.injEq]
                exact ⟨h.1, by rw [h.2]⟩
              · simp only [hc', if_false] at h ⊢
                simp only [List.cons_append, hc', if_false]
                exact ih _ _ _ _ _ h _ _ hk (by omega)
          · simp [hdep] at h
        rw [if_neg hc1] at h ⊢
        by_cases hc2 : c = '['
        · rw [if_pos hc2] at h ⊢
          by_cases hdep : d < maxNestingDepth
          · have hdep' : d' < maxNestingDepth := Nat.lt_of_le_of_lt hd hdep
            simp only [hdep, hdep', if_true] at h ⊢
            cases hs : skipSpace cs with
            | nil => simp [hs] at h
            | cons c' cs' =>
              rw [hs] at h
              rw [skipSpace_append _ _ _ _ hs]
              by_cases hc' : c' = ']'
              · simp only [hc', if_true, Option.some.injEq, Prod.mk.injEq] at h ⊢
                simp only [List.cons_append, if_true, Option.some.injEq, Prod.mk.injEq]
                exact ⟨h.1, by rw [h.2]⟩
              · simp only [hc', if_false] at h ⊢
                simp only [List.cons_append, hc', if_false]
                exact ih _ _ _ _ _ h _ _ hk (by omega)
          · simp [hdep] at h
        rw [if_neg hc2] at h ⊢
        by_cases hc3 : c = '"'
        · rw [if_pos hc3] at h ⊢
          cases hx : scanString cs with
          | none => simp [hx] at h
          | some r1 =>
            rw [hx] at h
            rw [scanString_append ext _ cs r1 (Nat.le_refl _) hx]
            simp only [Option.map_some', Option.some.injEq, Prod.mk.injEq] at h
            obtain ⟨h1, h2⟩ := h
            subst h1 h2
            rfl
        rw [if_neg hc3] at h ⊢
        by_cases hc4 : c = 't'
        · rw [if_pos hc4] at h ⊢
          cases hx : scanLiteral ['r', 'u', 'e'] cs with
          | none => simp [hx] at h
          | some r1 =>
            rw [hx] at h
            rw [scanLiteral_append _ cs r1 ext hx]
            simp only [Option.map_some', Option.some.injEq, Prod.mk.injEq] at h
            obtain ⟨h1, h2⟩ := h
            subst h1 h2
            rfl
        rw [if_neg hc4] at h ⊢
        by_cases hc5 : c = 'f'
        · rw [if_pos hc5] at h ⊢
          cases hx : scanLiteral ['a', 'l', 's', 'e'] cs with
          | none => simp [hx] at h
          | some r1 =>
            rw [hx] at h
            rw [scanLiteral_append _ cs r1 ext hx]
            simp only [Option.map_some', Option.some.injEq, Prod.mk.injEq] at h
            obtain ⟨h1, h2⟩ := h
            subst h1 h2
            rfl
        rw [if_neg hc5] at h ⊢
        by_cases hc6 : c = 'n'
        · rw [if_pos hc6] at h ⊢
          cases hx : scanLiteral ['u', 'l', 'l'] cs with
          | none => simp [hx] at h
          | some r1 =>
            rw [hx] at h
            rw [scanLiteral_append _ cs r1 ext hx]
            simp only [Option.map_some', Option.some.injEq, Prod.mk.injEq] at h
            obtain ⟨h1, h2⟩ := h
            subst h1 h2
            rfl
        rw [if_neg hc6] at h ⊢
        cases hx : scanNumber (c :: cs) with
        | none => simp [hx] at h
        | some r1 =>
          rw [hx] at h
          have := scanNumber_append (c :: cs) r1 ext hext hx
          rw [List.cons_append] at this
          rw [this]
          simp only [Option.map_some', Option.some.injEq, Prod.mk.injEq] at h
          obtain ⟨h1, h2⟩ := h
          subst h1 h2
          rfl
      | members =>
        rw [scan] at h
        rw [List.cons_append, scan]
        by_cases hq : c = '"'
        · rw [if_pos hq] at h ⊢
          cases hx : scanString cs with
          | none => simp [hx] at h
          | some r1 =>
            rw [hx] at h
            rw [scanString_append ext _ cs r1 (Nat.le_refl _) hx]
            simp only at h ⊢
            cases hs1 : skipSpace r1 with
            | nil => simp [hs1] at h
            | cons col r2 =>
              rw [hs1] at h
              rw [skipSpace_append _ _ _ _ hs1]
              simp only [List.cons_append] at h ⊢
              by_cases hcol : col = ':'
              · rw [if_pos hcol] at h ⊢
                cases hs2 : skipSpace r2 with
                | nil => simp [hs2, scan_nil] at h
                | cons v0 vs =>
                  rw [hs2] at h
                  rw [skipSpace_append _ _ _ _ hs2]
                  cases hv : scan n d .value (v0 :: vs) with
                  | none => simp [hv] at h
                  | some p =>
                    obtain ⟨sub, r3⟩ := p
                    rw [hv] at h
                    rw [ih _ _ _ _ _ hv _ _ hk hd]
                    simp only at h ⊢
                    rw [take_append_sub, unquote_append ext cs r1 hx]
                    cases hs3 : skipSpace r3 with
                    | nil => simp [hs3] at h
                    | cons d0 r4 =>
                      rw [hs3] at h
                      rw [skipSpace_append _ _ _ _ hs3]
                      simp only [List.cons_append] at h ⊢
                      by_cases hd0 : d0 = ','
                      · simp only [hd0, if_true] at h ⊢
                        cases hs4 : skipSpace r4 with
                        | nil => simp [hs4, scan_nil] at h
                        | cons w0 ws =>
                          rw [hs4] at h
                          rw [skipSpace_append _ _ _ _ hs4]
                          cases hrec : scan n d .members (w0 :: ws) with
                          | none => simp [hrec] at h
                          | some p =>
                            rw [hrec] at h
                            rw [ih _ _ _ _ _ hrec _ _ hk hd]
                            simp only [Option.map_some', Option.some.injEq, Prod.mk.injEq] at h ⊢
                            exact ⟨h.1, by rw [h.2]⟩
                      · simp only [hd0, if_false] at h ⊢
                        by_cases hd1 : d0 = '}'
                        · simp only [hd1, if_true, Option.some.injEq, Prod.mk.injEq] at h ⊢
                          exact ⟨h.1, by rw [h.2]⟩
                        · simp [hd1] at h
              · simp [hcol] at h
        · simp [hq] at h
      | elems =>
        rw [scan] at h
        rw [scan]
        cases hv : scan n d .value (c :: cs) with
        | none => simp [hv] at h
        | some p =>
          obtain ⟨sub, r1⟩ := p
          rw [hv] at h
          rw [ih _ _ _ _ _ hv _ _ hk hd]
          simp only at h ⊢
          cases hs3 : skipSpace r1 with
          | nil => simp [hs3] at h
          | cons d0 r2 =>
            rw [hs3] at h
            rw [skipSpace_append _ _ _ _ hs3]
            simp only [List.cons_append] at h ⊢
            by_cases hd0 : d0 = ','
            · simp only [hd0, if_true] at h ⊢
              cases hs4 : skipSpace r2 with
              | nil => simp [hs4, scan_nil] at h
              | cons w0 ws =>
                rw [hs4] at h
                rw [skipSpace_append _ _ _ _ hs4]
                exact ih _ _ _ _ _ h _ _ hk hd
            · simp only [hd0, if_false] at h ⊢
              by_cases hd1 : d0 = ']'
              · simp only [hd1, if_true, Option.some.injEq, Prod.mk.injEq] at h ⊢
                exact ⟨h.1, by rw [h.2]⟩
              · simp [hd1] at h

theorem endsNumber_brace (ext : List Char) : EndsNumber ('}' :: ext) := by
  intro e he
  simp only [List.head?_cons, Option.mem_def, Option.some.injEq] at he
  subst he
  decide

theorem skipSpace_of_not_space (c : Char) (cs : List Char) (h : isSpace c = false) :
    skipSpace (c :: cs) = c :: cs := by
  simp [skipSpace, h]

theorem scanNumber_not_space (c : Char) (cs r : List Char) (h : scanNumber (c :: cs) = some r) :
    isSpace c = false := by
  by_cases hs : isSpace c = true
  · exfalso
    have hc : c = ' ' ∨ c = '\t' ∨ c = '\r' ∨ c = '\n' := by
      simpa [isSpace, or_assoc] using hs
    rcases hc with hc | hc | hc | hc <;> subst hc <;> simp [scanNumber, scanInt, isDigit] at h
  · simpa using hs

theorem scan_value_not_space (n d : Nat) (c : Char) (cs : List Char) (x : List Member × List Char)
    (h : scan n d .value (c :: cs) = some x) : isSpace c = false := by
  cases n with
  | zero => rw [scan] at h; cases h
  | succ n =>
    rw [scan] at h
    by_cases hc1 : c = '{'
    · subst hc1; decide
    rw [if_neg hc1] at h
    by_cases hc2 : c = '['
    · subst hc2; decide
    rw [if_neg hc2] at h
    by_cases hc3 : c = '"'
    · subst hc3; decide
    rw [if_neg hc3] at h
    by_cases hc4 : c = 't'
    · subst hc4; decide
    rw [if_neg hc4] at h
    by_cases hc5 : c = 'f'
    · subst hc5; decide
    rw [if_neg hc5] at h
    by_cases hc6 : c = 'n'
    · subst hc6; decide
    rw [if_neg hc6] at h
    cases hx : scanNumber (c :: cs) with
    | none => simp [hx] at h
    | some r => exact scanNumber_not_space c cs r hx

theorem scan_strategyObject (raw ext : List Char) (sub : List Member) (n0 n : Nat)
    (hraw : scan n0 2 .value raw = some (sub, [])) (hn : n0 + 2 ≤ n) :
    scan n 1 .value (strategyObject raw ext)
      = some ([{ key := ['s', 't', 'r', 'a', 't', 'e', 'g', 'y'], raw := raw,
                 sub := sub.map fun m => (m.key, m.raw) }], ext) := by
  obtain ⟨k, rfl⟩ : ∃ k, n = k + 2 := ⟨n - 2, by omega⟩
  have hk : n0 ≤ k := by omega
  have hv := scan_extend ('}' :: ext) (endsNumber_brace ext) _ _ _ _ _ _ hraw k 2 hk (Nat.le_refl _)
  cases raw with
  | nil => rw [scan_nil] at hraw; cases hraw
  | cons c0 raw' =>
    have hsp := scan_value_not_space _ _ _ _ _ hraw
    have hmax : 1 < maxNestingDepth := by decide
    have hq : isSpace '"' = false := by decide
    have hcolon : isSpace ':' = false := by decide
    have hbrace : isSpace '}' = false := by decide
    unfold strategyObject
    rw [scan]
    simp only [if_true, hmax, skipSpace_of_not_space _ _ hq]
    rw [if_neg (by decide), scan]
    simp only [if_true]
    have hstr : scanString ('s' :: 't' :: 'r' :: 'a' :: 't' :: 'e' :: 'g' :: 'y' :: '"' :: ':'
        :: (c0 :: raw' ++ '}' :: ext)) = some (':' :: (c0 :: raw' ++ '}' :: ext)) := by
      simp [scanString_cons]
    have hkey : unquote ('s' :: 't' :: 'r' :: 'a' :: 't' :: 'e' :: 'g' :: 'y' :: '"' :: ':'
        :: (c0 :: raw' ++ '}' :: ext)) = ['s', 't', 'r', 'a', 't', 'e', 'g', 'y'] := by
      simp [unquote, unquoteUnits_cons, decodeUnits]
    have htake := take_append_sub (c0 :: raw') [] ('}' :: ext)
    simp only [List.nil_append, List.length_nil, Nat.sub_zero, List.take_length] at htake
    rw [hstr]
    simp only [skipSpace_of_not_space _ _ hcolon, if_true]
    rw [List.cons_append, skipSpace_of_not_space _ _ hsp, ← List.cons_append, hv]
    simp only [List.nil_append, skipSpace_of_not_space _ _ hbrace]
    rw [if_neg (by decide), if_pos trivial, hkey, htake]

theorem strategyObject_append (raw ext : List Char) :
    strategyObject raw ext = strategyObject raw [] ++ ext := by
  simp [strategyObject]

theorem scan_tierMappingText (t raw : List Char) (sub : List Member) (n0 n : Nat)
    (hraw : scan n0 2 .value raw = some (sub, [])) (hn : n0 + 4 ≤ n) :
    scan n 0 .value (tierMappingText t raw)
      = some ([{ key := t, raw := strategyObject raw [],
                 sub := [(['s', 't', 'r', 'a', 't', 'e', 'g', 'y'], raw)] }], []) := by
  obtain ⟨k, rfl⟩ : ∃ k, n = k + 2 := ⟨n - 2, by omega⟩
  have hinner := scan_strategyObject raw ['}'] sub n0 k hraw (by omega)
  have hmax : 0 < maxNestingDepth := by decide
  have hq : isSpace '"' = false := by decide
  have hcolon : isSpace ':' = false := by decide
  have hbrace : isSpace '}' = false := by decide
  have hopen : isSpace '{' = false := by decide
  have hso : skipSpace (strategyObject raw ['}']) = strategyObject raw ['}'] := by
    unfold strategyObject
    exact skipSpace_of_not_space _ _ hopen
  have htake := take_append_sub (strategyObject raw []) [] ['}']
  simp only [List.nil_append, List.length_nil, Nat.sub_zero, List.take_length] at htake
  rw [← strategyObject_append] at htake
  unfold tierMappingText
  rw [scan]
  simp only [if_true, hmax, skipSpace_of_not_space _ _ hq]
  rw [if_neg (by decide), scan]
  simp only [if_true]
  rw [scanString_quoteBody]
  simp only [skipSpace_of_not_space _ _ hcolon, if_true]
  rw [hso, hinner]
  simp only [skipSpace_of_not_space _ _ hbrace]
  rw [if_neg (by decide), if_pos trivial, unquote_quoteBody, htake]
  rfl

end JSON

theorem matchesField_strategy :
    matchesField ['s', 't', 'r', 'a', 't', 'e', 'g', 'y'] ['s', 't', 'r', 'a', 't', 'e', 'g', 'y']
      = true := by decide

theorem unmarshal_tierMappingText (t raw : List Char) (hval : JSON.isValueAt 2 raw = true) :
    Unmarshal (String.mk (JSON.tierMappingText t raw))
      = .ok [(String.mk t, some { RawStrategy := some (String.mk raw) })] := by
  unfold JSON.isValueAt at hval
  split at hval
  next sub hscan =>
    have hlen : (2 * raw.length + 2) + 4 ≤ 2 * (JSON.tierMappingText t raw).length + 2 := by
      simp [JSON.tierMappingText, JSON.strategyObject]
      omega
    have hsc := JSON.scan_tierMappingText t raw sub _ _ hscan hlen
    have hsk : JSON.skipSpace (JSON.tierMappingText t raw) = JSON.tierMappingText t raw := by
      unfold JSON.tierMappingText
      exact JSON.skipSpace_of_not_space _ _ (by decide)
    have hdoc : JSON.document (JSON.tierMappingText t raw)
        = some [{ key := t, raw := JSON.strategyObject raw [],
                  sub := [(['s', 't', 'r', 'a', 't', 'e', 'g', 'y'], raw)] }] := by
      unfold JSON.document
      simp only [hsk]
      rw [hsc]
      rfl
    unfold Unmarshal
    simp only [hdoc, hsk]
    unfold JSON.tierMappingText
    simp only [if_true]
    simp [decodeMap, decodeElem, JSON.strategyObject, decodeStruct, matchesField_strategy, mapSet]
  next => cases hval

/-! ## The fuel of the scanner is enough -/

namespace JSON

theorem skipSpace_length (r : List Char) : (skipSpace r).length ≤ r.length := by
  induction r with
  | nil => simp [skipSpace]
  | cons a r ih =>
    simp only [skipSpace]
    split_ifs
    · simp only [List.length_cons]; omega
    · exact Nat.le_refl _

theorem skipSpace_cons_length (r : List Char) (c : Char) (r' : List Char)
    (h : skipSpace r = c :: r') : r'.length < r.length := by
  have := skipSpace_length r
  rw [h] at this
  simp only [List.length_cons] at this
  omega

theorem scanString_length :
    ∀ (n : Nat) (cs r : List Char), cs.length ≤ n → scanString cs = some r →
      r.length < cs.length := by
  intro n
  induction n with
  | zero =>
    intro cs r hl h
    cases cs with
    | nil => simp [scanString] at h
    | cons c cs => simp at hl
  | succ n ih =>
    intro cs r hl h
    cases cs with
    | nil => simp [scanString] at h
    | cons c cs =>
      rw [scanString_cons] at h
      simp only [List.length_cons] at hl ⊢
      split_ifs at h with h1 h2 h3
      · simp only [Option.some.injEq] at h; rw [h]; omega
      · cases cs with
        | nil => simp at h
        | cons e r1 =>
          simp only [List.length_cons] at hl ⊢
          simp only at h
          split_ifs at h with h4 h5
          · match r1, h, hl with
            | h1 :: h2 :: h3 :: h4 :: r', h, hl =>
              simp only [List.length_cons] at hl ⊢
              simp only at h
              split_ifs at h with h6
              have := ih r' r (by omega) h
              omega
            | [], h, _ => simp at h
            | [_], h, _ => simp at h
            | [_, _], h, _ => simp at h
            | [_, _, _], h, _ => simp at h
          · have := ih r1 r (by omega) h
            omega
      · have := ih cs r (by omega) h
        omega

theorem scanLiteral_length (tail cs r : List Char) (h : scanLiteral tail cs = some r) :
    r.length ≤ cs.length := by
  unfold scanLiteral at h
  split_ifs at h
  simp only [Option.some.injEq] at h
  rw [← h, List.length_drop]
  omega

theorem skipDigits_length (cs : List Char) : (skipDigits cs).length ≤ cs.length := by
  induction cs with
  | nil => simp [skipDigits]
  | cons a r ih =>
    simp only [skipDigits]
    split_ifs
    · simp only [List.length_cons]; omega
    · exact Nat.le_refl _

theorem scanDigits1_length (cs r : List Char) (h : scanDigits1 cs = some r) :
    r.length ≤ cs.length := by
  cases cs with
  | nil => simp [scanDigits1] at h
  | cons c cs =>
    simp only [scanDigits1] at h
    split_ifs at h
    simp only [Option.some.injEq] at h
    have := skipDigits_length cs
    rw [← h]; simp only [List.length_cons]; omega

theorem scanExp_length (cs r : List Char) (h : scanExp cs = some r) :
    r.length ≤ cs.length := by
  cases cs with
  | nil => simp only [scanExp, Option.some.injEq] at h; rw [← h]
  | cons c cs =>
    simp only [scanExp] at h
    split_ifs at h
    · cases cs with
      | nil => simp at h
      | cons s r1 =>
        simp only at h
        split_ifs at h
        · have := scanDigits1_length _ _ h
          simp only [List.length_cons]; omega
        · have := scanDigits1_length _ _ h
          simp only [List.length_cons] at this ⊢; omega
    · simp only [Option.some.injEq] at h; rw [← h]

theorem scanFrac_length (cs r : List Char) (h : scanFrac cs = some r) :
    r.length ≤ cs.length := by
  cases cs with
  | nil => simp only [scanFrac, Option.some.injEq] at h; rw [← h]
  | cons c cs =>
    simp only [scanFrac] at h
    split_ifs at h
    · cases hd : scanDigits1 cs with
      | none => simp [hd] at h
      | some r1 =>
        rw [hd] at h
        have h1 := scanDigits1_length _ _ hd
        have h2 := scanExp_length _ _ h
        simp only [List.length_cons]; omega
    · exact scanExp_length _ _ h

theorem scanInt_length (cs r : List Char) (h : scanInt cs = some r) :
    r.length < cs.length := by
  cases cs with
  | nil => simp [scanInt] at h
  | cons c cs =>
    simp only [scanInt] at h
    split_ifs at h
    · simp only [Option.some.injEq] at h; rw [← h]; simp
    · simp only [Option.some.injEq] at h
      have := skipDigits_length cs
      rw [← h]; simp only [List.length_cons]; omega

theorem scanNumber_length (cs r : List Char) (h : scanNumber cs = some r) :
    r.length < cs.length := by
  cases cs with
  | nil => simp [scanNumber] at h
  | cons c cs =>
    simp only [scanNumber] at h
    split_ifs at h
    · cases hd : scanInt cs with
      | none => simp [hd] at h
      | some r1 =>
        rw [hd] at h
        have h1 := scanInt_length _ _ hd
        have h2 := scanFrac_length _ _ h
        simp only [List.length_cons]; omega
    · cases hd : scanInt (c :: cs) with
      | none => simp [hd] at h
      | some r1 =>
        rw [hd] at h
        have h1 := scanInt_length _ _ hd
        have h2 := scanFrac_length _ _ h
        omega

theorem scan_length :
    ∀ (n d : Nat) (m : Mode) (inp : List Char) (ms : List Member) (r : List Char),
      scan n d m inp = some (ms, r) → r.length < inp.length := by
  intro n
  induction n with
  | zero => intro d m inp ms r h; rw [scan] at h; cases h
  | succ n ih =>
    intro d m inp ms r h
    cases inp with
    | nil => rw [scan_nil] at h; cases h
    | cons c cs =>
      simp only [List.length_cons]
      cases m with
      | value =>
        rw [scan] at h
        by_cases hc1 : c = '{'
        · rw [if_pos hc1] at h
          by_cases hdep : d < maxNestingDepth
          · rw [if_pos hdep] at h
            cases hs : skipSpace cs with
            | nil => simp [hs] at h
            | cons c' cs' =>
              rw [hs] at h
              have hl := skipSpace_cons_length _ _ _ hs
              by_cases hc' : c' = '}'
              · simp only [hc', if_true, Option.some.injEq, Prod.mk.injEq] at h
                rw [← h.2]; omega
              · simp only [hc', if_false] at h
                have := ih _ _ _ _ _ h
                simp only [List.length_cons] at this
                omega
          · simp [hdep] at h
        rw [if_neg hc1] at h
        by_cases hc2 : c = '['
        · rw [if_pos hc2] at h
          by_cases hdep : d < maxNestingDepth
          · rw [if_pos hdep] at h
            cases hs : skipSpace cs with
            | nil => simp [hs] at h
            | cons c' cs' =>
              rw [hs] at h
              have hl := skipSpace_cons_length _ _ _ hs
              by_cases hc' : c' = ']'
              · simp only [hc', if_true, Option.some.injEq, Prod.mk.injEq] at h
                rw [← h.2]; omega
              · simp only [hc', if_false] at h
                have := ih _ _ _ _ _ h
                simp only [List.length_cons] at this
                omega
          · simp [hdep] at h
        rw [if_neg hc2] at h
        by_cases hc3 : c = '"'
        · rw [if_pos hc3] at h
          cases hx : scanString cs with
          | none => simp [hx] at h
          | some r1 =>
            rw [hx] at h
            simp only [Option.map_some', Option.some.injEq, Prod.mk.injEq] at h
            have := scanString_length _ _ _ (Nat.le_refl _) hx
            rw [← h.2]; omega
        rw [if_neg hc3] at h
        by_cases hc4 : c = 't'
        · rw [if_pos hc4] at h
          cases hx : scanLiteral ['r', 'u', 'e'] cs with
          | none => simp [hx] at h
          | some r1 =>
            rw [hx] at h
            simp only [Option.map_some', Option.some.injEq, Prod.mk.injEq] at h
            have := scanLiteral_length _ _ _ hx
            rw [← h.2]; omega
        rw [if_neg hc4] at h
        by_cases hc5 : c = 'f'
        · rw [if_pos hc5] at h
          cases hx : scanLiteral ['a', 'l', 's', 'e'] cs with
          | none => simp [hx] at h
          | some r1 =>
            rw [hx] at h
            simp only [Option.map_some', Option.some.injEq, Prod.mk.injEq] at h
            have := scanLiteral_length _ _ _ hx
            rw [← h.2]; omega
        rw [if_neg hc5] at h
        by_cases hc6 : c = 'n'
        · rw [if_pos hc6] at h
          cases hx : scanLiteral ['u', 'l', 'l'] cs with
          | none => simp [hx] at h
          | some r1 =>
            rw [hx] at h
            simp only [Option.map_some', Option.some.injEq, Prod.mk.injEq] at h
            have := scanLiteral_length _ _ _ hx
            rw [← h.2]; omega
        rw [if_neg hc6] at h
        cases hx : scanNumber (c :: cs) with
        | none => simp [hx] at h
        | some r1 =>
          rw [hx] at h
          simp only [Option.map_some', Option.some.injEq, Prod.mk.injEq] at h
          have := scanNumber_length _ _ hx
          simp only [List.length_cons] at this
          rw [← h.2]; omega
      | members =>
        rw [scan] at h
        by_cases hq : c = '"'
        · rw [if_pos hq] at h
          cases hx : scanString cs with
          | none => simp [hx] at h
          | some r1 =>
            rw [hx] at h
            have hl1 := scanString_length _ _ _ (Nat.le_refl _) hx
            simp only at h
            cases hs1 : skipSpace r1 with
            | nil => simp [hs1] at h
            | cons col r2 =>
              rw [hs1] at h
              have hl2 := skipSpace_cons_length _ _ _ hs1
              simp only at h
              by_cases hcol : col = ':'
              · rw [if_pos hcol] at h
                have hl3 := skipSpace_length r2
                cases hv : scan n d .value (skipSpace r2) with
                | none => simp [hv] at h
                | some p =>
                  obtain ⟨sub, r3⟩ := p
                  rw [hv] at h
                  have hl4 := ih _ _ _ _ _ hv
                  simp only at h
                  cases hs3 : skipSpace r3 with
                  | nil => simp [hs3] at h
                  | cons d0 r4 =>
                    rw [hs3] at h
                    have hl5 := skipSpace_cons_length _ _ _ hs3
                    simp only at h
                    by_cases hd0 : d0 = ','
                    · rw [if_pos hd0] at h
                      have hl6 := skipSpace_length r4
                      cases hrec : scan n d .members (skipSpace r4) with
                      | none => simp [hrec] at h
                      | some p =>
                        rw [hrec] at h
                        have hl7 := ih _ _ _ _ _ hrec
                        simp only [Option.map_some', Option.some.injEq, Prod.mk.injEq] at h
                        rw [← h.2]; omega
                    · rw [if_neg hd0] at h
                      by_cases hd1 : d0 = '}'
                      · simp only [hd1, if_true, Option.some.injEq, Prod.mk.injEq] at h
                        rw [← h.2]; omega
                      · simp [hd1] at h
              · simp [hcol] at h
        · simp [hq] at h
      | elems =>
        rw [scan] at h
        cases hv : scan n d .value (c :: cs) with
        | none => simp [hv] at h
        | some p =>
          obtain ⟨sub, r1⟩ := p
          rw [hv] at h
          have hl1 := ih _ _ _ _ _ hv
          simp only [List.length_cons] at hl1
          simp only at h
          cases hs3 : skipSpace r1 with
          | nil => simp [hs3] at h
          | cons d0 r2 =>
            rw [hs3] at h
            have hl2 := skipSpace_cons_length _ _ _ hs3
            simp only at h
            by_cases hd0 : d0 = ','
            · rw [if_pos hd0] at h
              have hl3 := skipSpace_length r2
              have := ih _ _ _ _ _ h
              omega
            · rw [if_neg hd0] at h
              by_cases hd1 : d0 = ']'
              · simp only [hd1, if_true, Option.some.injEq, Prod.mk.injEq] at h
                rw [← h.2]; omega
              · simp [hd1] at h

theorem scan_fuel :
    ∀ (n d : Nat) (m : Mode) (inp : List Char) (k : Nat),
      2 * inp.length + (if m = .elems then 2 else 1) ≤ n →
      2 * inp.length + (if m = .elems then 2 else 1) ≤ k →
      scan n d m inp = scan k d m inp := by
  intro n
  induction n with
  | zero =>
    intro d m inp k hn hk
    split_ifs at hn <;> omega
  | succ n ih =>
    intro d m inp k hn hk
    obtain ⟨k, rfl⟩ : ∃ k', k = k' + 1 := ⟨k - 1, by split_ifs at hk <;> omega⟩
    cases inp with
    | nil => rw [scan_nil, scan_nil]
    | cons c cs =>
      simp only [List.length_cons] at hn hk
      cases m with
      | value =>
        simp only [reduceCtorEq, if_false] at hn hk
        rw [scan, scan]
        by_cases hc1 : c = '{'
        · rw [if_pos hc1, if_pos hc1]
          by_cases hdep : d < maxNestingDepth
          · rw [if_pos hdep, if_pos hdep]
            cases hs : skipSpace cs with
            | nil => rfl
            | cons c' cs' =>
              have hl := skipSpace_cons_length _ _ _ hs
              simp only
              by_cases hc' : c' = '}'
              · rw [if_pos hc', if_pos hc']
              · rw [if_neg hc', if_neg hc']
                apply ih
                · simp only [List.length_cons, reduceCtorEq, if_false]; omega
                · simp only [List.length_cons, reduceCtorEq, if_false]; omega
          · rw [if_neg hdep, if_neg hdep]
        rw [if_neg hc1, if_neg hc1]
        by_cases hc2 : c = '['
        · rw [if_pos hc2, if_pos hc2]
          by_cases hdep : d < maxNestingDepth
          · rw [if_pos hdep, if_pos hdep]
            cases hs : skipSpace cs with
            | nil => rfl
            | cons c' cs' =>
              have hl := skipSpace_cons_length _ _ _ hs
              simp only
              by_cases hc' : c' = ']'
              · rw [if_pos hc', if_pos hc']
              · rw [if_neg hc', if_neg hc']
                apply ih
                · simp only [List.length_cons, if_true]; omega
                · simp only [List.length_cons, if_true]; omega
          · rw [if_neg hdep, if_neg hdep]
        rw [if_neg hc2, if_neg hc2]
      | members =>
        simp only [reduceCtorEq, if_false] at hn hk
        rw [scan, scan]
        by_cases hq : c = '"'
        · rw [if_pos hq, if_pos hq]
          cases hx : scanString cs with
          | none => rfl
          | some r1 =>
            have hl1 := scanString_length _ _ _ (Nat.le_refl _) hx
            simp only
            cases hs1 : skipSpace r1 with
            | nil => rfl
            | cons col r2 =>
              have hl2 := skipSpace_cons_length _ _ _ hs1
              simp only
              by_cases hcol : col = ':'
              · rw [if_pos hcol, if_pos hcol]
                have hl3 := skipSpace_length r2
                have hv : scan n d .value (skipSpace r2) = scan k d .value (skipSpace r2) := by
                  apply ih
                  · simp only [reduceCtorEq, if_false]; omega
                  · simp only [reduceCtorEq, if_false]; omega
                rw [hv]
                cases hv' : scan k d .value (skipSpace r2) with
                | none => rfl
                | some p =>
                  obtain ⟨sub, r3⟩ := p
                  have hl4 := scan_length _ _ _ _ _ _ hv'
                  simp only
                  cases hs3 : skipSpace r3 with
                  | nil => rfl
                  | cons d0 r4 =>
                    have hl5 := skipSpace_cons_length _ _ _ hs3
                    simp only
                    by_cases hd0 : d0 = ','
                    · rw [if_pos hd0, if_pos hd0]
                      have hl6 := skipSpace_length r4
                      have hrec : scan n d .members (skipSpace r4)
                          = scan k d .members (skipSpace r4) := by
                        apply ih
                        · simp only [reduceCtorEq, if_false]; omega
                        · simp only [reduceCtorEq, if_false]; omega
                      rw [hrec]
                    · rw [if_neg hd0, if_neg hd0]
              · rw [if_neg hcol, if_neg hcol]
        · rw [if_neg hq, if_neg hq]
      | elems =>
        simp only [if_true] at hn hk
        rw [scan, scan]
        have hv : scan n d .value (c :: cs) = scan k d .value (c :: cs) := by
          apply ih
          · simp only [List.length_cons, reduceCtorEq, if_false]; omega
          · simp only [List.length_cons, reduceCtorEq, if_false]; omega
        rw [hv]
        cases hv' : scan k d .value (c :: cs) with
        | none => rfl
        | some p =>
          obtain ⟨sub, r1⟩ := p
          have hl1 := scan_length _ _ _ _ _ _ hv'
          simp only [List.length_cons] at hl1
          simp only
          cases hs3 : skipSpace r1 with
          | nil => rfl
          | cons d0 r2 =>
            have hl2 := skipSpace_cons_length _ _ _ hs3
            simp only
            by_cases hd0 : d0 = ','
            · rw [if_pos hd0, if_pos hd0]
              have hl3 := skipSpace_length r2
              apply ih
              · simp only [if_true]; omega
              · simp only [if_true]; omega
            · rw [if_neg hd0, if_neg hd0]

/-- The fuel `document` gives to `scan` is enough: more fuel never changes the
outcome, so no text is refused for lack of fuel. -/
theorem scan_document_fuel (d : Nat) (inp : List Char) (n : Nat)
    (hn : 2 * inp.length + 2 ≤ n) :
    scan n d .value inp = scan (2 * inp.length + 2) d .value inp := by
  apply scan_fuel
  · simp only [reduceCtorEq, if_false]; omega
  · simp only [reduceCtorEq, if_false]; omega

end JSON

/-! ## Theorems -/

/-- C1: when the accessor returns a record whose entry under `rt` is non-empty text
that decodes to a tier mapping with a non-null entry `s` for `tier`,
`ReadStorageStrategy` returns `s` and a nil error. -/
theorem readStorageStrategy_returns_tier_entry {Client : Type} (acc : Accessor Client)
    (m : ConfigMapConfigManager Client) (rt : ResourceType) (tier : String)
    (cm : ConfigMap) (raw : String) (strategies : List (String × Option StrategyConfig))
    (s : StrategyConfig)
    (hacc : acc m.client { Name := m.configMapName, Namespace := m.configMapNamespace }
      (buildDefaultConfigMap m) = .ok cm)
    (hraw : cm.Data.lookup rt = some raw) (hne : raw ≠ "")
    (hdec : Unmarshal raw = .ok strategies)
    (htier : strategies.lookup tier = some (some s)) :
    ReadStorageStrategy acc m rt tier = (some s, none) := by
  simp [ReadStorageStrategy, hacc, hraw, hne, hdec, htier]

/-- Witness for C1: in the sample record the call for `postgres` and `production`
returns the payload written under `production` in the entry for `postgres`. -/
theorem readStorageStrategy_returns_tier_entry_witness :
    ReadStorageStrategy (foundAccessor sampleRecord) sampleManager "postgres" "production"
      = (some { RawStrategy := some "\x7b\"size\": 2\x7d" }, none) :=
  readStorageStrategy_returns_tier_entry (foundAccessor sampleRecord) sampleManager
    "postgres" "production" sampleRecord
    "\x7b\"development\": \x7b\"strategy\": \x7b\"size\": 1\x7d\x7d, \"production\": \x7b\"strategy\": \x7b\"size\": 2\x7d\x7d, \"staging\": null\x7d"
    [("development", some { RawStrategy := some "\x7b\"size\": 1\x7d" }),
     ("production", some { RawStrategy := some "\x7b\"size\": 2\x7d" }),
     ("staging", none)]
    { RawStrategy := some "\x7b\"size\": 2\x7d" }
    rfl (by rfl) (by decide) (by rfl) (by rfl)

/-- C2: when the entry for `rt` decodes to a tier mapping that has no key `tier`, or
maps `tier` to null, `ReadStorageStrategy` returns no `StrategyConfig` and the
tier-undefined error, whose message names both `rt` and `tier`. -/
theorem readStorageStrategy_tier_undefined {Client : Type} (acc : Accessor Client)
    (m : ConfigMapConfigManager Client) (rt : ResourceType) (tier : String)
    (cm : ConfigMap) (raw : String) (strategies : List (String × Option StrategyConfig))
    (hacc : acc m.client { Name := m.configMapName, Namespace := m.configMapNamespace }
      (buildDefaultConfigMap m) = .ok cm)
    (hraw : cm.Data.lookup rt = some raw)
    (hdec : Unmarshal raw = .ok strategies)
    (htier : strategies.lookup tier = none ∨ strategies.lookup tier = some none) :
    ∃ message : String,
      ReadStorageStrategy acc m rt tier = (none, some (.fundamental message))
      ∧ message = "no strategy found for deployment type " ++ rt
          ++ " and deployment tier " ++ tier
      ∧ names message rt ∧ names message tier := by
  have hne : raw ≠ "" := by
    intro h
    rw [h, unmarshal_empty] at hdec
    cases hdec
  have hj : (strategies.lookup tier).join = none := by
    rcases htier with h | h <;> simp [h]
  refine ⟨_, ?_, rfl, ?_, ?_⟩
  · simp only [ReadStorageStrategy, hacc, hraw, Option.getD_some, hne, if_false, hdec, hj]
  · exact names_of_eq _ "no strategy found for deployment type " rt
      (" and deployment tier " ++ tier) (by simp [String.append_assoc])
  · exact names_of_eq_end _ ("no strategy found for deployment type " ++ rt
      ++ " and deployment tier ") tier rfl

/-- Witness for C2: the entry for `redis` in the sample record defines only
`production`, and the call for `development` fails with the tier-undefined
error. -/
theorem readStorageStrategy_tier_undefined_witness :
    Unmarshal "\x7b\"production\": \x7b\"strategy\": \x7b\"size\": 3\x7d\x7d\x7d"
        = .ok [("production", some { RawStrategy := some "\x7b\"size\": 3\x7d" })]
    ∧ ∃ message : String,
      ReadStorageStrategy (foundAccessor sampleRecord) sampleManager "redis" "development"
        = (none, some (.fundamental message))
      ∧ message = "no strategy found for deployment type " ++ "redis"
          ++ " and deployment tier " ++ "development"
      ∧ names message "redis" ∧ names message "development" :=
  ⟨by rfl,
   readStorageStrategy_tier_undefined (foundAccessor sampleRecord) sampleManager
    "redis" "development" sampleRecord "\x7b\"production\": \x7b\"strategy\": \x7b\"size\": 3\x7d\x7d\x7d"
    [("production", some { RawStrategy := some "\x7b\"size\": 3\x7d" })]
    rfl (by rfl) (by rfl) (Or.inl (by rfl))⟩

/-- C3: when the record has no entry under a key equal to `rt`, or its entry under
`rt` is the empty string, then for every tier `ReadStorageStrategy` returns no
`StrategyConfig` and the resource-type-undefined error, whose message names
`rt`. -/
theorem readStorageStrategy_resource_type_undefined {Client : Type} (acc : Accessor Client)
    (m : ConfigMapConfigManager Client) (rt : ResourceType) (cm : ConfigMap)
    (hacc : acc m.client { Name := m.configMapName, Namespace := m.configMapNamespace }
      (buildDefaultConfigMap m) = .ok cm)
    (hraw : (∀ p ∈ cm.Data, p.1 ≠ rt) ∨ cm.Data.lookup rt = some "") :
    ∃ message : String,
      (∀ tier : String,
        ReadStorageStrategy acc m rt tier = (none, some (.fundamental message)))
      ∧ message = "openshift strategy for resource type " ++ rt ++ " is not defined"
      ∧ names message rt := by
  have hl : (cm.Data.lookup rt).getD "" = "" := by
    rcases hraw with h | h
    · rw [lookup_none_of_no_key _ _ h]; rfl
    · rw [h]; rfl
  refine ⟨_, ?_, rfl, ?_⟩
  · intro tier
    simp only [ReadStorageStrategy, hacc, hl, if_true]
  · exact names_of_eq _ "openshift strategy for resource type " rt " is not defined" rfl

/-- Witness for C3: the sample record has the keys `Blobstorage` and ` blobstorage `
but no key `blobstorage`, and the call for `blobstorage` fails with the
resource-type-undefined error. -/
theorem readStorageStrategy_resource_type_undefined_witness :
    ((∀ p ∈ sampleRecord.Data, p.1 ≠ "blobstorage")
      ∨ sampleRecord.Data.lookup "blobstorage" = some "")
    ∧ ∃ message : String,
      (∀ tier : String,
        ReadStorageStrategy (foundAccessor sampleRecord) sampleManager "blobstorage" tier
          = (none, some (.fundamental message)))
      ∧ message = "openshift strategy for resource type " ++ "blobstorage" ++ " is not defined"
      ∧ names message "blobstorage" :=
  ⟨Or.inl (by decide),
   readStorageStrategy_resource_type_undefined (foundAccessor sampleRecord) sampleManager
    "blobstorage" sampleRecord rfl (Or.inl (by decide))⟩

/-- C4: when the entry for `rt` is non-empty text that `json.Unmarshal` rejects with
an error `e`, then for every tier `ReadStorageStrategy` returns no
`StrategyConfig` and the decode-failure error: `e` wrapped with a message that
names `rt`. The result is neither a success nor the tier-undefined error. -/
theorem readStorageStrategy_decode_failure {Client : Type} (acc : Accessor Client)
    (m : ConfigMapConfigManager Client) (rt : ResourceType) (cm : ConfigMap)
    (raw : String) (e : Error)
    (hacc : acc m.client { Name := m.configMapName, Namespace := m.configMapNamespace }
      (buildDefaultConfigMap m) = .ok cm)
    (hraw : cm.Data.lookup rt = some raw) (hne : raw ≠ "")
    (hdec : Unmarshal raw = .error e) :
    ∃ message : String,
      message = "failed to unmarshal strategy mapping for resource type " ++ rt
      ∧ names message rt
      ∧ ∀ tier : String,
        ReadStorageStrategy acc m rt tier = (none, some (.withMessage e message))
        ∧ (ReadStorageStrategy acc m rt tier).1 = none
        ∧ (ReadStorageStrategy acc m rt tier).2
            ≠ some (.fundamental ("no strategy found for deployment type " ++ rt
                ++ " and deployment tier " ++ tier)) := by
  refine ⟨_, rfl, ?_, ?_⟩
  · exact names_of_eq_end _ "failed to unmarshal strategy mapping for resource type " rt rfl
  · intro tier
    have h : ReadStorageStrategy acc m rt tier = (none, some (.withMessage e
        ("failed to unmarshal strategy mapping for resource type " ++ rt))) := by
      simp only [ReadStorageStrategy, hacc, hraw, Option.getD_some, hne, if_false, hdec]
    rw [h]
    exact ⟨rfl, rfl, by simp⟩

/-- Witness for C4: the raw text `{not json` is rejected with a syntax error, and the
call for the sample record's entry `Blobstorage` fails with that error
wrapped. -/
theorem readStorageStrategy_decode_failure_witness :
    Unmarshal "\x7bnot json" = .error .SyntaxError
    ∧ ∃ message : String,
      message = "failed to unmarshal strategy mapping for resource type " ++ "Blobstorage"
      ∧ names message "Blobstorage"
      ∧ ∀ tier : String,
        ReadStorageStrategy (foundAccessor sampleRecord) sampleManager "Blobstorage" tier
          = (none, some (.withMessage .SyntaxError message))
        ∧ (ReadStorageStrategy (foundAccessor sampleRecord) sampleManager "Blobstorage" tier).1
            = none
        ∧ (ReadStorageStrategy (foundAccessor sampleRecord) sampleManager "Blobstorage" tier).2
            ≠ some (.fundamental ("no strategy found for deployment type " ++ "Blobstorage"
                ++ " and deployment tier " ++ tier)) :=
  ⟨by rfl,
   readStorageStrategy_decode_failure (foundAccessor sampleRecord) sampleManager
    "Blobstorage" sampleRecord "\x7bnot json" .SyntaxError rfl (by rfl) (by decide) (by rfl)⟩

/-- C5: when the accessor fails with an error `e`, `ReadStorageStrategy` returns no
`StrategyConfig` and an error that wraps `e`, unchanged, with a message that
names the manager's config map name and namespace. -/
theorem readStorageStrategy_store_access_failure {Client : Type} (acc : Accessor Client)
    (m : ConfigMapConfigManager Client) (rt : ResourceType) (tier : String) (e : Error)
    (hacc : acc m.client { Name := m.configMapName, Namespace := m.configMapNamespace }
      (buildDefaultConfigMap m) = .error e) :
    ∃ message : String,
      ReadStorageStrategy acc m rt tier = (none, some (.withMessage e message))
      ∧ message = "failed to get openshift strategy config map " ++ m.configMapName
          ++ " in namespace " ++ m.configMapNamespace
      ∧ names message m.configMapName ∧ names message m.configMapNamespace
      ∧ (Error.withMessage e message).Cause = e.Cause := by
  refine ⟨_, ?_, rfl, ?_, ?_, rfl⟩
  · simp only [ReadStorageStrategy, hacc]
  · exact names_of_eq _ "failed to get openshift strategy config map " m.configMapName
      (" in namespace " ++ m.configMapNamespace) (by simp [String.append_assoc])
  · exact names_of_eq_end _ ("failed to get openshift strategy config map " ++ m.configMapName
      ++ " in namespace ") m.configMapNamespace rfl

/-- Witness for C5: a store that fails with `connection refused`. -/
theorem readStorageStrategy_store_access_failure_witness :
    ∃ message : String,
      ReadStorageStrategy (failingAccessor (.external "connection refused")) sampleManager
          "postgres" "production"
        = (none, some (.withMessage (.external "connection refused") message))
      ∧ message = "failed to get openshift strategy config map "
          ++ sampleManager.configMapName ++ " in namespace " ++ sampleManager.configMapNamespace
      ∧ names message sampleManager.configMapName
      ∧ names message sampleManager.configMapNamespace
      ∧ (Error.withMessage (.external "connection refused") message).Cause
          = (Error.external "connection refused").Cause :=
  readStorageStrategy_store_access_failure (failingAccessor (.external "connection refused"))
    sampleManager "postgres" "production" (.external "connection refused") rfl

/-- C9: for every accessor, manager, resource type and tier, `ReadStorageStrategy`
returns either a `StrategyConfig` and a nil error, or a nil `StrategyConfig` and
an error; never both and never neither. -/
theorem readStorageStrategy_value_xor_error {Client : Type} (acc : Accessor Client)
    (m : ConfigMapConfigManager Client) (rt : ResourceType) (tier : String) :
    ((ReadStorageStrategy acc m rt tier).1 ≠ none ∧ (ReadStorageStrategy acc m rt tier).2 = none)
    ∨ ((ReadStorageStrategy acc m rt tier).1 = none
        ∧ (ReadStorageStrategy acc m rt tier).2 ≠ none) := by
  unfold ReadStorageStrategy
  split
  · right; exact ⟨rfl, by simp⟩
  · dsimp only
    split
    · right; exact ⟨rfl, by simp⟩
    · split
      · right; exact ⟨rfl, by simp⟩
      · split
        · right; exact ⟨rfl, by simp⟩
        · left; exact ⟨by simp, rfl⟩

/-- C10: `NewConfigMapConfigManager` keeps a non-empty name and a non-empty namespace
and replaces an empty one by `DefaultConfigMapName`, respectively
`DefaultConfigMapNamespace`; it keeps the client; and `NewDefaultConfigManager`
builds the same manager as `NewConfigMapConfigManager` on two empty strings. -/
theorem newConfigMapConfigManager_defaults {Client : Type} (DefaultConfigMapNamespace : String)
    (cm ns : String) (c : Client) :
    (NewConfigMapConfigManager DefaultConfigMapNamespace cm ns c).configMapName
        = (if cm = "" then DefaultConfigMapName else cm)
    ∧ (NewConfigMapConfigManager DefaultConfigMapNamespace cm ns c).configMapNamespace
        = (if ns = "" then DefaultConfigMapNamespace else ns)
    ∧ (NewConfigMapConfigManager DefaultConfigMapNamespace cm ns c).client = c
    ∧ DefaultConfigMapName = "cloud-resources-openshift-strategies"
    ∧ NewDefaultConfigManager DefaultConfigMapNamespace c
        = NewConfigMapConfigManager DefaultConfigMapNamespace "" "" c := by
  refine ⟨rfl, rfl, rfl, rfl, ?_⟩
  simp only [NewDefaultConfigManager, NewConfigMapConfigManager, if_true]
  have h1 : DefaultConfigMapName ≠ "" := by decide
  simp only [h1, if_false]
  by_cases h2 : DefaultConfigMapNamespace = ""
  · simp [h2]
  · simp [h2]

/-- C8: when the accessor returns the built-in default record, `ReadStorageStrategy`
succeeds for each of `postgres`, `redis`, `blobstorage` and each of
`development`, `production`, with the payload `{}`; the default record has
exactly these three entries, and each decodes to exactly these two tiers. -/
theorem readStorageStrategy_default_record {Client : Type} (acc : Accessor Client)
    (m : ConfigMapConfigManager Client)
    (hacc : acc m.client { Name := m.configMapName, Namespace := m.configMapNamespace }
      (buildDefaultConfigMap m) = .ok (buildDefaultConfigMap m)) :
    (∀ rt ∈ ["postgres", "redis", "blobstorage"], ∀ tier ∈ ["development", "production"],
      ReadStorageStrategy acc m rt tier = (some { RawStrategy := some "\x7b\x7d" }, none))
    ∧ (buildDefaultConfigMap m).Data.map Prod.fst = ["postgres", "redis", "blobstorage"]
    ∧ ∀ entry ∈ (buildDefaultConfigMap m).Data,
        Unmarshal entry.2 = .ok [("development", some { RawStrategy := some "\x7b\x7d" }),
          ("production", some { RawStrategy := some "\x7b\x7d" })] := by
  have hdec : Unmarshal
      "\x7b\"development\": \x7b \"strategy\": \x7b\x7d \x7d, \"production\": \x7b \"strategy\": \x7b\x7d \x7d \x7d"
      = .ok [("development", some { RawStrategy := some "\x7b\x7d" }),
          ("production", some { RawStrategy := some "\x7b\x7d" })] := by rfl
  refine ⟨?_, rfl, ?_⟩
  · intro rt hrt tier htier
    have hentry : (buildDefaultConfigMap m).Data.lookup rt
        = some "\x7b\"development\": \x7b \"strategy\": \x7b\x7d \x7d, \"production\": \x7b \"strategy\": \x7b\x7d \x7d \x7d" := by
      simp only [List.mem_cons, List.mem_singleton, List.not_mem_nil, or_false] at hrt
      rcases hrt with h | h | h <;> subst h <;> rfl
    have hlook : ([("development", some ({ RawStrategy := some "\x7b\x7d" } : StrategyConfig)),
          ("production", some { RawStrategy := some "\x7b\x7d" })].lookup tier).join
        = some { RawStrategy := some "\x7b\x7d" } := by
      simp only [List.mem_cons, List.mem_singleton, List.not_mem_nil, or_false] at htier
      rcases htier with h | h <;> subst h <;> rfl
    have hne : ("\x7b\"development\": \x7b \"strategy\": \x7b\x7d \x7d, \"production\": \x7b \"strategy\": \x7b\x7d \x7d \x7d"
        : String) ≠ "" := by decide
    simp only [ReadStorageStrategy, hacc, hentry, Option.getD_some, hne, if_false, hdec, hlook]
  · intro entry hentry
    simp only [buildDefaultConfigMap, List.mem_cons, List.mem_singleton, List.not_mem_nil,
      or_false] at hentry
    rcases hentry with h | h | h <;> subst h <;> exact hdec

/-- Witness for C8: a store without a record, whose accessor yields the default it is
given. -/
theorem readStorageStrategy_default_record_witness :
    (∀ rt ∈ ["postgres", "redis", "blobstorage"], ∀ tier ∈ ["development", "production"],
      ReadStorageStrategy defaultAccessor sampleManager rt tier
        = (some { RawStrategy := some "\x7b\x7d" }, none))
    ∧ (buildDefaultConfigMap sampleManager).Data.map Prod.fst
        = ["postgres", "redis", "blobstorage"]
    ∧ ∀ entry ∈ (buildDefaultConfigMap sampleManager).Data,
        Unmarshal entry.2 = .ok [("development", some { RawStrategy := some "\x7b\x7d" }),
          ("production", some { RawStrategy := some "\x7b\x7d" })] :=
  readStorageStrategy_default_record defaultAccessor sampleManager rfl

/-- C6, as stated, fails: with the entry `{"development": {"strategy": null}}` the
call for `development` succeeds with the payload text `null`, and with the
entry `{"development": {}}` it succeeds with a nil payload; neither is the
tier-undefined error. -/
theorem readStorageStrategy_null_payload_counterexample :
    ReadStorageStrategy (foundAccessor nullPayloadRecord) sampleManager "postgres" "development"
      = (some { RawStrategy := some "null" }, none)
    ∧ ReadStorageStrategy (foundAccessor missingPayloadRecord) sampleManager "postgres"
        "development"
      = (some { RawStrategy := none }, none) :=
  ⟨by rfl, by rfl⟩

/-- C6, amended: when the entry for `rt` decodes to a tier mapping in which `tier` has
a non-null entry `s` whose payload is the text `null` or is missing,
`ReadStorageStrategy` does not treat the tier as absent: it returns `s`, with
that payload, and a nil error. -/
theorem readStorageStrategy_null_payload_returned {Client : Type} (acc : Accessor Client)
    (m : ConfigMapConfigManager Client) (rt : ResourceType) (tier : String)
    (cm : ConfigMap) (raw : String) (strategies : List (String × Option StrategyConfig))
    (s : StrategyConfig)
    (hacc : acc m.client { Name := m.configMapName, Namespace := m.configMapNamespace }
      (buildDefaultConfigMap m) = .ok cm)
    (hraw : cm.Data.lookup rt = some raw)
    (hdec : Unmarshal raw = .ok strategies)
    (htier : strategies.lookup tier = some (some s))
    (hpayload : s.RawStrategy = some "null" ∨ s.RawStrategy = none) :
    ReadStorageStrategy acc m rt tier = (some s, none)
    ∧ ((ReadStorageStrategy acc m rt tier).1.map StrategyConfig.RawStrategy = some (some "null")
        ∨ (ReadStorageStrategy acc m rt tier).1.map StrategyConfig.RawStrategy = some none)
    ∧ (ReadStorageStrategy acc m rt tier).2
        ≠ some (.fundamental ("no strategy found for deployment type " ++ rt
            ++ " and deployment tier " ++ tier)) := by
  have hne : raw ≠ "" := by
    intro h
    rw [h, unmarshal_empty] at hdec
    cases hdec
  have hj : (strategies.lookup tier).join = some s := by rw [htier]; rfl
  have h : ReadStorageStrategy acc m rt tier = (some s, none) := by
    simp only [ReadStorageStrategy, hacc, hraw, Option.getD_some, hne, if_false, hdec, hj]
  rw [h]
  refine ⟨rfl, ?_, by simp⟩
  rcases hpayload with hp | hp
  · left; simp [hp]
  · right; simp [hp]

/-- Witness for the amended C6: the entry `{"development": {"strategy": null}}`. -/
theorem readStorageStrategy_null_payload_returned_witness :
    ReadStorageStrategy (foundAccessor nullPayloadRecord) sampleManager "postgres" "development"
      = (some { RawStrategy := some "null" }, none)
    ∧ ((ReadStorageStrategy (foundAccessor nullPayloadRecord) sampleManager "postgres"
          "development").1.map StrategyConfig.RawStrategy
            = some (some "null")
        ∨ (ReadStorageStrategy (foundAccessor nullPayloadRecord) sampleManager "postgres"
          "development").1.map StrategyConfig.RawStrategy = some none)
    ∧ (ReadStorageStrategy (foundAccessor nullPayloadRecord) sampleManager "postgres"
          "development").2
        ≠ some (.fundamental ("no strategy found for deployment type " ++ "postgres"
            ++ " and deployment tier " ++ "development")) :=
  readStorageStrategy_null_payload_returned (foundAccessor nullPayloadRecord) sampleManager
    "postgres" "development" nullPayloadRecord
    "\x7b\"development\": \x7b\"strategy\": null\x7d\x7d"
    [("development", some { RawStrategy := some "null" })]
    { RawStrategy := some "null" }
    rfl (by rfl) (by rfl) (by rfl) (Or.inl rfl)

/-- C7, as stated, fails for three kinds of payload. A nil payload is written as
`null` and comes back as the text `null`; a payload with white space between
its tokens comes back compacted; and a payload that is not valid JSON cannot be
encoded at all. -/
theorem readStorageStrategy_round_trip_counterexample :
    (roundTrip "postgres" "development" { RawStrategy := none }
        = some (some { RawStrategy := some "null" }, none)
      ∧ roundTrip "postgres" "development" { RawStrategy := none }
        ≠ some (some { RawStrategy := none }, none))
    ∧ (roundTrip "postgres" "development" { RawStrategy := some "\x7b \"size\" : 2 \x7d" }
        = some (some { RawStrategy := some "\x7b\"size\":2\x7d" }, none)
      ∧ roundTrip "postgres" "development" { RawStrategy := some "\x7b \"size\" : 2 \x7d" }
        ≠ some (some { RawStrategy := some "\x7b \"size\" : 2 \x7d" }, none))
    ∧ roundTrip "postgres" "development" { RawStrategy := some "\x7bnot json" } = none := by
  have h1 : roundTrip "postgres" "development" { RawStrategy := none }
      = some (some { RawStrategy := some "null" }, none) := by rfl
  have h2 : roundTrip "postgres" "development" { RawStrategy := some "\x7b \"size\" : 2 \x7d" }
      = some (some { RawStrategy := some "\x7b\"size\":2\x7d" }, none) := by rfl
  refine ⟨⟨h1, ?_⟩, ⟨h2, ?_⟩, by rfl⟩
  · rw [h1]; decide
  · rw [h2]; decide

/-- C7, amended: for every tier and every `StrategyConfig` whose payload is a JSON
value in the form the encoder writes (not nil, no white space around it, left
unchanged by the encoder's compaction and escaping, and accepted by the scanner
two levels down, where the encoded text holds it), the encoder succeeds, and
whenever its text is the record's entry for `rt`, `ReadStorageStrategy` returns
the same `StrategyConfig` and a nil error. -/
theorem readStorageStrategy_round_trip (tier : String) (s : StrategyConfig) (raw : String)
    (hs : s.RawStrategy = some raw)
    (hval : JSON.isValueAt 2 raw.data = true)
    (hcompact : compactText false raw.data = raw.data) :
    ∃ text : String,
      encodeTierMapping tier s = some text
      ∧ ∀ {Client : Type} (acc : Accessor Client) (m : ConfigMapConfigManager Client)
          (rt : ResourceType) (cm : ConfigMap),
          acc m.client { Name := m.configMapName, Namespace := m.configMapNamespace }
            (buildDefaultConfigMap m) = .ok cm →
          cm.Data.lookup rt = some text →
          ReadStorageStrategy acc m rt tier = (some s, none) := by
  have hdec := unmarshal_tierMappingText tier.data raw.data hval
  have hdoc : (JSON.document raw.data).isSome = true := by
    unfold JSON.isValueAt at hval
    split at hval
    next sub hscan =>
      cases hr : raw.data with
      | nil => rw [hr, JSON.scan_nil] at hscan; cases hscan
      | cons c0 cs =>
        rw [hr] at hscan
        have hsp := JSON.scan_value_not_space _ _ _ _ _ hscan
        have h0 := JSON.scan_extend [] JSON.endsNumber_nil _ _ _ _ _ _ hscan
          (2 * (c0 :: cs).length + 2) 0 (Nat.le_refl _) (Nat.zero_le _)
        rw [List.append_nil] at h0
        unfold JSON.document
        simp only [JSON.skipSpace_of_not_space _ _ hsp]
        rw [h0]
        rfl
    next => cases hval
  refine ⟨String.mk (JSON.tierMappingText tier.data raw.data), ?_, ?_⟩
  · simp [encodeTierMapping, hs, hdoc, hcompact, JSON.tierMappingText, JSON.strategyObject]
  · intro Client acc m rt cm hacc hentry
    have hne : String.mk (JSON.tierMappingText tier.data raw.data) ≠ "" := by
      intro h
      have := congrArg String.data h
      simp [JSON.tierMappingText] at this
    have hs' : s = { RawStrategy := some raw } := by
      cases s; simp only at hs; rw [hs]
    have hlook : ([(String.mk tier.data, some ({ RawStrategy := some (String.mk raw.data) }
        : StrategyConfig))].lookup tier).join = some s := by
      rw [hs']
      simp [List.lookup]
    simp only [ReadStorageStrategy, hacc, hentry, Option.getD_some, hne, if_false, hdec, hlook]

/-- Witness for the amended C7: the payload `{"size":2}` under `production`. -/
theorem readStorageStrategy_round_trip_witness :
    ∃ text : String,
      encodeTierMapping "production" { RawStrategy := some "\x7b\"size\":2\x7d" } = some text
      ∧ ∀ {Client : Type} (acc : Accessor Client) (m : ConfigMapConfigManager Client)
          (rt : ResourceType) (cm : ConfigMap),
          acc m.client { Name := m.configMapName, Namespace := m.configMapNamespace }
            (buildDefaultConfigMap m) = .ok cm →
          cm.Data.lookup rt = some text →
          ReadStorageStrategy acc m rt "production"
            = (some { RawStrategy := some "\x7b\"size\":2\x7d" }, none) :=
  readStorageStrategy_round_trip "production" { RawStrategy := some "\x7b\"size\":2\x7d" }
    "\x7b\"size\":2\x7d" rfl (by rfl) (by rfl)

end Openshift
